import Mathlib

/-!
# Verification of the Snake AI decision core

A shallow embedding of the `SnakeAI` class (`src/ai/SnakeAI.ts`, the agent
decision core of the repository) together with proofs about its occupancy
oracle, flood-fill reachability analyzer, A* path planner, Hamiltonian tour
generator/follower and the strategy-selection facade.

Modelling conventions:
* JS numbers that hold grid coordinates are embedded as `Int` (all the code
  ever stores in them are integers).
* `Math.random()` draws are passed in explicitly as a rational parameter.
* `Date.now()` is passed in explicitly as an `Int` parameter `now`.
* JS `Map` objects keyed by stringified coordinates are embedded as
  association lists keyed by the coordinates themselves (the string key
  `"{x},{y}"` is injective on integer coordinates, so the two are
  observationally identical); `Map.set` is embedded as a shadowing cons.
* The two unbounded `while` loops of the A* planner are embedded with an
  explicit fuel parameter; `none` means the fuel ran out, and a result that
  is `none` for *every* fuel is a faithful rendering of nontermination.
* The float comparisons `spaceRatio < 0.3` and `length > n * 0.5` are
  embedded as the exact integer comparisons `10 * count < 3 * n` and
  `2 * length > n`; for the grid sizes the game can represent these agree
  with the double-precision comparisons of the source.
-/

/-- `Position` — integer grid coordinate, also used as a direction vector. -/
structure Position where
  x : Int
  y : Int
deriving DecidableEq, Repr

instance : Inhabited Position := ⟨⟨0, 0⟩⟩

/-- `SnakeState` — one snake: head, body (head-first, tail-last), the last
applied direction and the cached body length. -/
structure SnakeState where
  head : Position
  body : List Position
  direction : Position
  length : Int
deriving DecidableEq, Repr

/-- `GameState` — the read-only per-tick snapshot handed to the agent. -/
structure GameState where
  food : Position
  gridWidth : Int
  gridHeight : Int
  obstacles : List Position
  snakes : List SnakeState
deriving DecidableEq, Repr

/-- The strategy tag of the agent (`'simple' | 'astar' | 'hamiltonian' |
'survival'` in the source). -/
inductive Strategy where
  | simple
  | astar
  | hamiltonian
  | survival
deriving DecidableEq, Repr

/-- The difficulty tier (`'Easy' | 'Medium' | 'Hard' | 'Expert' |
'Impossible'` in the source). -/
inductive Difficulty where
  | easy
  | medium
  | hard
  | expert
  | impossible
deriving DecidableEq, Repr

/-- `isPositionOccupied(pos, currentSnake, gameState)`: the occupancy oracle.
The self-snake check runs over indices `0 ≤ i < body.length - 1`, i.e. over
`body.dropLast`, so the last element (the tail) is skipped; then every body
segment of every *other* snake; then the obstacles.  The source skips the
self snake by object identity (`snake === currentSnake`), embedded here as
structural equality.  Note the source performs *no* grid-bounds test here. -/
def isPositionOccupied (pos : Position) (currentSnake : SnakeState)
    (gameState : GameState) : Bool :=
  currentSnake.body.dropLast.any (fun seg => seg == pos)
  || gameState.snakes.any (fun snake =>
       !(snake == currentSnake) && snake.body.any (fun seg => seg == pos))
  || gameState.obstacles.any (fun obstacle => obstacle == pos)

/-- The grid-bounds test `0 ≤ x < gridWidth ∧ 0 ≤ y < gridHeight` that the
callers of the oracle perform inline. -/
def inBounds (gameState : GameState) (pos : Position) : Bool :=
  0 ≤ pos.x && pos.x < gameState.gridWidth
  && 0 ≤ pos.y && pos.y < gameState.gridHeight

/-- `isSafeMove(snake, direction, gameState)`: bounds test on the stepped
head followed by the occupancy oracle. -/
def isSafeMove (snake : SnakeState) (direction : Position)
    (gameState : GameState) : Bool :=
  let newHead : Position := ⟨snake.head.x + direction.x, snake.head.y + direction.y⟩
  inBounds gameState newHead && !isPositionOccupied newHead snake gameState

/-- The fixed direction enumeration right, left, down, up used throughout
the source. -/
def fourDirections : List Position :=
  [⟨1, 0⟩, ⟨-1, 0⟩, ⟨0, 1⟩, ⟨0, -1⟩]

/-- `getSafeMove(snake, gameState)`: first occupancy-safe direction in the
fixed enumeration order, `{x:1,y:0}` if none is safe. -/
def getSafeMove (snake : SnakeState) (gameState : GameState) : Position :=
  match (fourDirections.filter (fun dir => isSafeMove snake dir gameState)) with
  | [] => ⟨1, 0⟩
  | d :: _ => d

/-- The 4-neighborhood in the enumeration order of the source:
`x+1`, `x-1`, `y+1`, `y-1`. -/
def neighbors4 (pos : Position) : List Position :=
  [⟨pos.x + 1, pos.y⟩, ⟨pos.x - 1, pos.y⟩, ⟨pos.x, pos.y + 1⟩, ⟨pos.x, pos.y - 1⟩]

/-- The neighbor filter of the flood fill: in bounds, unoccupied and not yet
visited (the source adds the popped cell to `visited` before filtering). -/
def floodNeighbors (snake : SnakeState) (gameState : GameState)
    (visited : List Position) (pos : Position) : List Position :=
  (neighbors4 pos).filter (fun n =>
    inBounds gameState n && !isPositionOccupied n snake gameState
      && !(visited.contains n))

/-- The `while (queue.length > 0 && count < 100)` loop of
`countAvailableSpace`: pop, skip if visited, otherwise count and enqueue the
admissible unvisited neighbors.  The loop always terminates because the
measure `5 * (100 - count) + queue.length` strictly decreases (each
counting pop removes one queue element, adds at most four and spends one of
the at most 100 count increments); it is embedded structurally on a fuel,
and `fuel = 5 * 100 + queue.length` is provably sufficient
(`floodLoop_fuel_free`), so the cap below is never observable. -/
def floodLoop (snake : SnakeState) (gameState : GameState) :
    Nat → List Position → List Position → Nat → Nat
  | 0, _, _, count => count
  | _ + 1, [], _, count => count
  | fuel + 1, pos :: rest, visited, count =>
    if 100 ≤ count then count
    else if pos ∈ visited then
      floodLoop snake gameState fuel rest visited count
    else
      floodLoop snake gameState fuel
        (rest ++ floodNeighbors snake gameState (pos :: visited) pos)
        (pos :: visited) (count + 1)

theorem floodNeighbors_length_le (snake : SnakeState) (gameState : GameState)
    (visited : List Position) (pos : Position) :
    (floodNeighbors snake gameState visited pos).length ≤ 4 := by
  have := List.length_filter_le
    (fun n => inBounds gameState n && !isPositionOccupied n snake gameState
      && !(visited.contains n)) (neighbors4 pos)
  simpa [floodNeighbors, neighbors4] using this

/-- Any fuel at least `5 * (100 - count) + queue.length` gives the same
result: the loop has already stopped by then, so the embedding's fuel is
unobservable (the source loop terminates for the same reason). -/
theorem floodLoop_fuel_free (snake : SnakeState) (gameState : GameState) :
    ∀ fuel fuel' queue visited count,
      5 * (100 - count) + queue.length ≤ fuel →
      5 * (100 - count) + queue.length ≤ fuel' →
      floodLoop snake gameState fuel queue visited count =
        floodLoop snake gameState fuel' queue visited count := by
  intro fuel
  induction fuel with
  | zero =>
    intro fuel' queue visited count h h'
    have hq : queue = [] := by
      cases queue with
      | nil => rfl
      | cons a l => simp at h
    subst hq
    cases fuel' <;> simp [floodLoop]
  | succ n ih =>
    intro fuel' queue visited count h h'
    cases queue with
    | nil => cases fuel' <;> simp [floodLoop]
    | cons pos rest =>
      cases fuel' with
      | zero => simp at h'
      | succ n' =>
        simp only [floodLoop]
        by_cases hc : 100 ≤ count
        · simp [hc]
        · simp only [hc, if_false]
          by_cases hv : pos ∈ visited
          · simp only [hv, if_true]
            apply ih
            · simp only [List.length_cons] at h
              omega
            · simp only [List.length_cons] at h'
              omega
          · simp only [hv, if_false]
            apply ih
            all_goals
              have hlen := floodNeighbors_length_le snake gameState
                (pos :: visited) pos
              simp only [List.length_cons, List.length_append] at h h' ⊢
              omega

/-- `countAvailableSpace(start, snake, gameState)`: bounded flood fill from
`start`, capped at 100 counted cells. -/
def countAvailableSpace (start : Position) (snake : SnakeState)
    (gameState : GameState) : Nat :=
  floodLoop snake gameState 501 [start] [] 0

/-- `shouldEnterSurvivalMode`: free-space proportion below `0.3`, or body
length above half the cell count (both embedded as exact integer tests). -/
def shouldEnterSurvivalMode (snake : SnakeState) (gameState : GameState) : Bool :=
  let cells : Int := gameState.gridWidth * gameState.gridHeight
  10 * (countAvailableSpace snake.head snake gameState : Int) < 3 * cells
  || 2 * snake.length > cells

/-- `getSimpleMove`: greedy move toward the food, preferring the axis with
the larger distance, falling back through the fixed direction enumeration,
and to `{x:1,y:0}` when nothing is safe. -/
def getSimpleMove (snake : SnakeState) (gameState : GameState) : Position :=
  let dx : Int := gameState.food.x - snake.head.x
  let dy : Int := gameState.food.y - snake.head.y
  let primary : Position :=
    if dx.natAbs > dy.natAbs then ⟨dx.sign, 0⟩ else ⟨0, dy.sign⟩
  if isSafeMove snake primary gameState then primary
  else
    match (fourDirections.filter (fun dir => isSafeMove snake dir gameState)) with
    | [] => ⟨1, 0⟩
    | d :: _ => d

/-- One step of `getSurvivalMove`'s best-move scan: a safe direction replaces
the current best exactly when its flood-fill count strictly exceeds the best
count so far (which starts at `-1`). -/
def survivalStep (snake : SnakeState) (gameState : GameState)
    (best : Position × Int) (direction : Position) : Position × Int :=
  if isSafeMove snake direction gameState then
    let newHead : Position :=
      ⟨snake.head.x + direction.x, snake.head.y + direction.y⟩
    let spaceCount : Int := (countAvailableSpace newHead snake gameState : Int)
    if spaceCount > best.2 then (direction, spaceCount) else best
  else best

/-- `getSurvivalMove`: among the four enumerated directions pick the safe one
leading to the most flood-fill space; `{x:1,y:0}` when none is safe. -/
def getSurvivalMove (snake : SnakeState) (gameState : GameState) : Position :=
  (fourDirections.foldl (survivalStep snake gameState) (⟨1, 0⟩, -1)).1

/-- One row of the boustrophedon tour: even rows left-to-right, odd rows
right-to-left (`generateHamiltonianCycle`'s inner loops). -/
def hamRow (w y : Nat) : List Position :=
  if y % 2 = 0 then
    (List.range w).map (fun x => ⟨Int.ofNat x, Int.ofNat y⟩)
  else
    (List.range w).reverse.map (fun x => ⟨Int.ofNat x, Int.ofNat y⟩)

/-- The rows `0, …, h-1` concatenated in order (the outer `y` loop of
`generateHamiltonianCycle`). -/
def zigzagRows (w : Nat) : Nat → List Position
  | 0 => []
  | h + 1 => zigzagRows w h ++ hamRow w h

/-- `generateHamiltonianCycle()` as a function of the constructor's grid
dimensions: empty for grids larger than 20 in either dimension, otherwise
the boustrophedon tour. -/
def generateHamiltonianCycle (gridWidth gridHeight : Int) : List Position :=
  if 20 < gridWidth || 20 < gridHeight then []
  else zigzagRows gridWidth.toNat gridHeight.toNat

/-- 4-adjacency: the two cells differ by exactly one step on exactly one
axis. -/
def adjacentCells (p q : Position) : Prop :=
  (p.x - q.x).natAbs + (p.y - q.y).natAbs = 1

instance (p q : Position) : Decidable (adjacentCells p q) := by
  unfold adjacentCells; infer_instance

/-- Membership in the four unit direction vectors. -/
def isUnitDirection (d : Position) : Prop := d ∈ fourDirections

instance (d : Position) : Decidable (isUnitDirection d) := by
  unfold isUnitDirection; infer_instance

/-- Association-list lookup, the embedding of `Map.get`/`Map.has` keyed by
stringified coordinates (the string key is injective, so keying by the
values themselves is observationally identical). -/
def alookup {α : Type} [DecidableEq α] {β : Type} :
    List (α × β) → α → Option β
  | [], _ => none
  | (k, v) :: rest, key => if k = key then some v else alookup rest key

/-- `Map.set` embedded as a shadowing cons (only `alookup` ever reads the
maps, so shadowing is observationally identical to in-place replacement). -/
def aset {α : Type} {β : Type} (m : List (α × β)) (k : α) (v : β) :
    List (α × β) := (k, v) :: m

/-- The Manhattan-distance heuristic of `findPathAStar`. -/
def manhattan (a b : Position) : Nat :=
  (a.x - b.x).natAbs + (a.y - b.y).natAbs

/-- `gScore.get(key) || 0` — a missing entry reads as `0` (and an entry `0`
also reads as `0`, so this is just `getD 0`). -/
def gRead (gScore : List (Position × Nat)) (pos : Position) : Nat :=
  (alookup gScore pos).getD 0

/-- `score.get(key) || Infinity` — *both* a missing entry and an entry `0`
read as `Infinity` (`0` is falsy in JS); `none` stands for `Infinity`. -/
def scoreReadInf (score : List (Position × Nat)) (pos : Position) : Option Nat :=
  match alookup score pos with
  | none => none
  | some v => if v = 0 then none else some v

/-- `a < b` where `b` may be `Infinity` (`none`). -/
def ltInf (a : Nat) (b : Option Nat) : Bool :=
  match b with
  | none => true
  | some v => a < v

/-- `fa < fb` where either side may be `Infinity` (`none`); JS has
`Infinity < Infinity = false` and `x < Infinity = true`. -/
def ltInfInf (fa fb : Option Nat) : Bool :=
  match fa, fb with
  | none, _ => false
  | some _, none => true
  | some a, some b => a < b

/-- `openSet.reduce(...)`: the first node of strictly minimal `fScore`
(with the `|| Infinity` read). -/
def minByFScore (fScore : List (Position × Nat)) (o : Position)
    (os : List Position) : Position :=
  os.foldl (fun best pos =>
    if ltInfInf (scoreReadInf fScore pos) (scoreReadInf fScore best) then pos
    else best) o

/-- The A* neighbor filter: in bounds and unoccupied. -/
def astarAdmissible (snake : SnakeState) (gameState : GameState)
    (pos : Position) : Bool :=
  inBounds gameState pos && !isPositionOccupied pos snake gameState

/-- The A* search state: open set, predecessor map, `g` and `f` maps. -/
structure AStarState where
  openSet : List Position
  cameFrom : List (Position × Position)
  gScore : List (Position × Nat)
  fScore : List (Position × Nat)
deriving Repr

/-- Relaxation of one neighbor (the body of the `for (const neighbor of
neighbors)` loop): if the tentative `g` beats the recorded one (with the
`|| Infinity` read), record predecessor and scores and push the neighbor
unless it is already in the open set. -/
def relaxNeighbor (goal current : Position) (st : AStarState)
    (neighbor : Position) : AStarState :=
  let tentative : Nat := gRead st.gScore current + 1
  if ltInf tentative (scoreReadInf st.gScore neighbor) then
    { openSet :=
        if st.openSet.any (fun pos => pos == neighbor) then st.openSet
        else st.openSet ++ [neighbor]
      cameFrom := aset st.cameFrom neighbor current
      gScore := aset st.gScore neighbor tentative
      fScore := aset st.fScore neighbor (tentative + manhattan neighbor goal) }
  else st

/-- The path-reconstruction loop (`while (cameFrom.has(key(current)))`),
with fuel; `none` means the fuel ran out. -/
def reconstructPath : Nat → List (Position × Position) → Position →
    List Position → Option (List Position)
  | 0, _, _, _ => none
  | fuel + 1, cameFrom, current, acc =>
    match alookup cameFrom current with
    | none => some acc
    | some prev => reconstructPath fuel cameFrom prev (prev :: acc)

/-- The main `while (openSet.length > 0)` loop of `findPathAStar`, with
fuel; `none` means the fuel ran out, `some []` is the source's "no path
found" result. -/
def astarLoop (goal : Position) (snake : SnakeState) (gameState : GameState) :
    Nat → AStarState → Option (List Position)
  | 0, _ => none
  | fuel + 1, st =>
    match st.openSet with
    | [] => some []
    | o :: os =>
      let current := minByFScore st.fScore o os
      if current == goal then
        reconstructPath (fuel + 1) st.cameFrom current [current]
      else
        let st1 : AStarState := { st with openSet := st.openSet.erase current }
        let neighbors :=
          (neighbors4 current).filter (astarAdmissible snake gameState)
        astarLoop goal snake gameState fuel
          (neighbors.foldl (relaxNeighbor goal current) st1)

/-- `findPathAStar(start, goal, snake, gameState)` with fuel. -/
def findPathAStar (fuel : Nat) (start goal : Position) (snake : SnakeState)
    (gameState : GameState) : Option (List Position) :=
  astarLoop goal snake gameState fuel
    { openSet := [start]
      cameFrom := []
      gScore := [(start, 0)]
      fScore := [(start, manhattan start goal)] }

/-- The mutable state of one `SnakeAI` instance (the fields the decision
core reads or writes; the wall-clock diagnostic `decisionTime` is omitted,
nothing ever reads it). -/
structure SnakeAI where
  difficulty : Difficulty
  strategy : Strategy
  playerId : Nat
  gridWidth : Int
  gridHeight : Int
  pathCache : List ((Position × Position) × List Position)
  lastCacheTime : Int
  hamiltonianCycle : List Position
  cycleIndex : Nat
  useHamiltonian : Bool
  survivalMode : Bool
  pathLength : Nat
deriving Repr

/-- The constructor `new SnakeAI(playerId, gridWidth, gridHeight)`: default
difficulty Medium, strategy astar, all caches empty, and the Hamiltonian
cycle precomputed from the constructor's grid dimensions. -/
def mkSnakeAI (playerId : Nat) (gridWidth gridHeight : Int) : SnakeAI :=
  { difficulty := Difficulty.medium
    strategy := Strategy.astar
    playerId := playerId
    gridWidth := gridWidth
    gridHeight := gridHeight
    pathCache := []
    lastCacheTime := 0
    hamiltonianCycle := generateHamiltonianCycle gridWidth gridHeight
    cycleIndex := 0
    useHamiltonian := false
    survivalMode := false
    pathLength := 0 }

/-- `setDifficulty(difficulty)`; `r` is the `Math.random()` draw used by the
Hard and Expert branches (the model of `0.3`/`0.7` as rationals).  Note that
the Easy and Medium branches of the source do *not* write `useHamiltonian`. -/
def setDifficulty (ai : SnakeAI) (difficulty : Difficulty) (r : ℚ) : SnakeAI :=
  match difficulty with
  | Difficulty.easy =>
    { ai with difficulty := difficulty, strategy := Strategy.simple }
  | Difficulty.medium =>
    { ai with difficulty := difficulty, strategy := Strategy.astar }
  | Difficulty.hard =>
    { ai with difficulty := difficulty, strategy := Strategy.astar
              useHamiltonian := decide (r < 3 / 10) }
  | Difficulty.expert =>
    { ai with difficulty := difficulty, strategy := Strategy.survival
              useHamiltonian := decide (r < 7 / 10) }
  | Difficulty.impossible =>
    { ai with difficulty := difficulty, strategy := Strategy.hamiltonian
              useHamiltonian := true }

/-- `getAStarMove(snake, gameState)`: serve the cached path when the cache
holds the `(head, food)` key, the *global* `lastCacheTime` is younger than
500 ms and the cached path has more than one node; otherwise run A*, cache a
successful path (stamping `lastCacheTime := now`) and step toward its second
node; fall back to `getSafeMove` when no path is found.  Returns `none` when
the A* fuel runs out. -/
def getAStarMove (fuel : Nat) (ai : SnakeAI) (snake : SnakeState)
    (gameState : GameState) (now : Int) : Option (Position × SnakeAI) :=
  let cacheKey : Position × Position := (snake.head, gameState.food)
  let cached : Option Position :=
    match alookup ai.pathCache cacheKey with
    | none => none
    | some cachedPath =>
      if now - ai.lastCacheTime < 500 && decide (1 < cachedPath.length) then
        let nextPos := cachedPath.getD 1 default
        some ⟨nextPos.x - snake.head.x, nextPos.y - snake.head.y⟩
      else none
  match cached with
  | some direction => some (direction, ai)
  | none =>
    match findPathAStar fuel snake.head gameState.food snake gameState with
    | none => none
    | some path =>
      if 1 < path.length then
        let nextPos := path.getD 1 default
        some (⟨nextPos.x - snake.head.x, nextPos.y - snake.head.y⟩,
          { ai with pathCache := aset ai.pathCache cacheKey path
                    lastCacheTime := now
                    pathLength := path.length })
      else
        some (getSafeMove snake gameState, ai)

/-- `getHamiltonianMove(snake, gameState)`: survival move when the cycle is
empty; A* when the head is not on the cycle; otherwise step to the next
cycle index (wrapping to 0), with *no* occupancy check on the step. -/
def getHamiltonianMove (fuel : Nat) (ai : SnakeAI) (snake : SnakeState)
    (gameState : GameState) (now : Int) : Option (Position × SnakeAI) :=
  if ai.hamiltonianCycle.length = 0 then
    some (getSurvivalMove snake gameState, ai)
  else
    match ai.hamiltonianCycle.findIdx? (fun pos => pos == snake.head) with
    | none => getAStarMove fuel ai snake gameState now
    | some currentIndex =>
      let nextIndex := (currentIndex + 1) % ai.hamiltonianCycle.length
      let nextPos := ai.hamiltonianCycle.getD nextIndex default
      some (⟨nextPos.x - snake.head.x, nextPos.y - snake.head.y⟩, ai)

/-- `getNextMove(gameState)`: the facade.  Default `{x:0,y:1}` when the
agent's snake is absent; otherwise record survival mode, follow the cycle
when `useHamiltonian` is set and survival mode is off, and otherwise
dispatch on the configured strategy. -/
def getNextMove (fuel : Nat) (ai : SnakeAI) (gameState : GameState)
    (now : Int) : Option (Position × SnakeAI) :=
  match gameState.snakes.get? ai.playerId with
  | none => some (⟨0, 1⟩, ai)
  | some snake =>
    let ai := { ai with survivalMode := shouldEnterSurvivalMode snake gameState }
    if ai.useHamiltonian && !ai.survivalMode then
      getHamiltonianMove fuel ai snake gameState now
    else
      match ai.strategy with
      | Strategy.simple => some (getSimpleMove snake gameState, ai)
      | Strategy.astar => getAStarMove fuel ai snake gameState now
      | Strategy.survival => some (getSurvivalMove snake gameState, ai)
      | Strategy.hamiltonian => getHamiltonianMove fuel ai snake gameState now

/-- `reset()`: clears the path cache and transient flags; difficulty,
strategy and the precomputed cycle persist. -/
def resetAI (ai : SnakeAI) : SnakeAI :=
  { ai with pathCache := [], cycleIndex := 0, survivalMode := false }

/-! ## Basic properties of the flood fill -/

theorem floodLoop_le (snake : SnakeState) (gameState : GameState) :
    ∀ fuel q v c, c ≤ floodLoop snake gameState fuel q v c := by
  intro fuel
  induction fuel with
  | zero => intro q v c; simp [floodLoop]
  | succ n ih =>
    intro q v c
    cases q with
    | nil => simp [floodLoop]
    | cons pos rest =>
      simp only [floodLoop]
      by_cases hcc : 100 ≤ c
      all_goals simp only [hcc, if_true, if_false, le_refl]
      all_goals by_cases hv : pos ∈ v
      all_goals simp only [hv, if_true, if_false]
      all_goals first
        | exact ih rest v c
        | exact le_trans (by omega) (ih _ _ (c + 1))

theorem countAvailableSpace_pos (start : Position) (snake : SnakeState)
    (gameState : GameState) : 1 ≤ countAvailableSpace start snake gameState := by
  rw [countAvailableSpace]
  show 1 ≤ floodLoop snake gameState (500 + 1) [start] [] 0
  simp only [floodLoop]
  have h100 : ¬ (100 ≤ 0) := by omega
  simp only [h100, if_false, List.not_mem_nil, if_true]
  exact floodLoop_le snake gameState _ _ _ 1

/-- C10.  The flood fill counts the start cell unconditionally (the bounds
and occupancy tests apply only to neighbors), so `countAvailableSpace`
returns at least 1 for every start, self-snake and snapshot — even when the
start is out of bounds, on an obstacle or inside a body — and whenever the
grid has a positive cell count, the free-space proportion
`count / (gridWidth * gridHeight)` used by `shouldEnterSurvivalMode` is at
least `1 / (gridWidth * gridHeight)`. -/
theorem C10_flood_count_pos (start : Position) (snake : SnakeState)
    (gameState : GameState) :
    1 ≤ countAvailableSpace start snake gameState ∧
    (0 < (gameState.gridWidth * gameState.gridHeight : Int) →
      (1 : ℚ) / ((gameState.gridWidth * gameState.gridHeight : Int) : ℚ) ≤
        ((countAvailableSpace start snake gameState : Nat) : ℚ) /
          ((gameState.gridWidth * gameState.gridHeight : Int) : ℚ)) := by
  refine ⟨countAvailableSpace_pos start snake gameState, fun hpos => ?_⟩
  have hc : (0 : ℚ) < ((gameState.gridWidth * gameState.gridHeight : Int) : ℚ) := by
    exact_mod_cast hpos
  rw [div_le_div_iff_of_pos_right hc]
  have := countAvailableSpace_pos start snake gameState
  exact_mod_cast this

/-- Closed witness for C10 at a concrete snapshot (2×2 grid, trivial snake). -/
theorem C10_flood_count_pos_witness :
    1 ≤ countAvailableSpace ⟨0, 0⟩ ⟨⟨0, 0⟩, [], ⟨1, 0⟩, 0⟩
        ⟨⟨1, 1⟩, 2, 2, [], []⟩ ∧
    (1 : ℚ) / ((4 : Int) : ℚ) ≤
      ((countAvailableSpace ⟨0, 0⟩ ⟨⟨0, 0⟩, [], ⟨1, 0⟩, 0⟩
        ⟨⟨1, 1⟩, 2, 2, [], []⟩ : Nat) : ℚ) / ((4 : Int) : ℚ) :=
  ⟨(C10_flood_count_pos ⟨0, 0⟩ ⟨⟨0, 0⟩, [], ⟨1, 0⟩, 0⟩ ⟨⟨1, 1⟩, 2, 2, [], []⟩).1,
   (C10_flood_count_pos ⟨0, 0⟩ ⟨⟨0, 0⟩, [], ⟨1, 0⟩, 0⟩
      ⟨⟨1, 1⟩, 2, 2, [], []⟩).2 (by decide)⟩

/-! ## C2: the occupancy oracle -/

/-- The occupancy predicate exactly as the specification words it (for
comparison with the source's `isPositionOccupied`): out of bounds, or an
obstacle, or a body segment of any snake with the self-tail exception. -/
def occupiedPerSpec (pos : Position) (selfSnake : SnakeState)
    (gameState : GameState) : Prop :=
  inBounds gameState pos = false
  ∨ pos ∈ gameState.obstacles
  ∨ pos ∈ selfSnake.body.dropLast
  ∨ ∃ t ∈ gameState.snakes, t ≠ selfSnake ∧ pos ∈ t.body

instance (pos : Position) (selfSnake : SnakeState) (gameState : GameState) :
    Decidable (occupiedPerSpec pos selfSnake gameState) := by
  unfold occupiedPerSpec; infer_instance

/-- C2, counterexample.  The source's oracle performs no grid-bounds test:
at the out-of-bounds cell `(-1,0)` on an empty 5×5 snapshot the
specification's predicate holds but `isPositionOccupied` returns `false`,
so the claimed "if and only if" fails. -/
theorem C2_counterexample :
    occupiedPerSpec ⟨-1, 0⟩ ⟨⟨0, 0⟩, [], ⟨1, 0⟩, 0⟩
      ⟨⟨1, 1⟩, 5, 5, [], [⟨⟨0, 0⟩, [], ⟨1, 0⟩, 0⟩]⟩ ∧
    isPositionOccupied ⟨-1, 0⟩ ⟨⟨0, 0⟩, [], ⟨1, 0⟩, 0⟩
      ⟨⟨1, 1⟩, 5, 5, [], [⟨⟨0, 0⟩, [], ⟨1, 0⟩, 0⟩]⟩ = false := by
  decide

/-- C2, amended.  `isPositionOccupied(p, s, g)` returns true if and only if
`p` coincides with a self-body segment at an index below `body.length - 1`
(so the tail — the last element — is excluded), or with any body segment of
a snake other than `s`, or with an obstacle.  Out-of-bounds positions are
*not* reported occupied by the oracle itself; the bounds test lives in its
callers (`isSafeMove`, the A* neighbor filter, the flood-fill filter). -/
theorem C2_occupied_iff_amended (pos : Position) (selfSnake : SnakeState)
    (gameState : GameState) :
    isPositionOccupied pos selfSnake gameState = true ↔
      (pos ∈ selfSnake.body.dropLast
        ∨ (∃ t ∈ gameState.snakes, t ≠ selfSnake ∧ pos ∈ t.body)
        ∨ pos ∈ gameState.obstacles) := by
  simp only [isPositionOccupied, Bool.or_eq_true, List.any_eq_true,
    Bool.and_eq_true, Bool.not_eq_true', beq_iff_eq, beq_eq_false_iff_ne,
    ne_eq]
  constructor
  · rintro ((⟨seg, hseg, rfl⟩ | ⟨t, ht, hne, seg, hseg, rfl⟩) | ⟨o, ho, rfl⟩)
    · exact Or.inl hseg
    · exact Or.inr (Or.inl ⟨t, ht, hne, hseg⟩)
    · exact Or.inr (Or.inr ho)
  · rintro (hmem | ⟨t, ht, hne, hmem⟩ | ho)
    · exact Or.inl (Or.inl ⟨pos, hmem, rfl⟩)
    · exact Or.inl (Or.inr ⟨t, ht, hne, pos, hmem, rfl⟩)
    · exact Or.inr ⟨pos, ho, rfl⟩

/-! ## C4: difficulty configuration -/

theorem getAStarMove_useHamiltonian {fuel : Nat} {ai : SnakeAI}
    {snake : SnakeState} {gameState : GameState} {now : Int} {d : Position}
    {ai' : SnakeAI}
    (h : getAStarMove fuel ai snake gameState now = some (d, ai')) :
    ai'.useHamiltonian = ai.useHamiltonian := by
  unfold getAStarMove at h
  simp only at h
  split at h
  · simp only [Option.some.injEq, Prod.mk.injEq] at h
    rw [← h.2]
  · split at h
    · exact absurd h (by simp)
    · split at h
      · simp only [Option.some.injEq, Prod.mk.injEq] at h
        rw [← h.2]
      · simp only [Option.some.injEq, Prod.mk.injEq] at h
        rw [← h.2]

theorem getHamiltonianMove_useHamiltonian {fuel : Nat} {ai : SnakeAI}
    {snake : SnakeState} {gameState : GameState} {now : Int} {d : Position}
    {ai' : SnakeAI}
    (h : getHamiltonianMove fuel ai snake gameState now = some (d, ai')) :
    ai'.useHamiltonian = ai.useHamiltonian := by
  unfold getHamiltonianMove at h
  split at h
  · simp only [Option.some.injEq, Prod.mk.injEq] at h
    rw [← h.2]
  · split at h
    · exact getAStarMove_useHamiltonian h
    · simp only [Option.some.injEq, Prod.mk.injEq] at h
      rw [← h.2]

theorem getNextMove_useHamiltonian {fuel : Nat} {ai : SnakeAI}
    {gameState : GameState} {now : Int} {d : Position} {ai' : SnakeAI}
    (h : getNextMove fuel ai gameState now = some (d, ai')) :
    ai'.useHamiltonian = ai.useHamiltonian := by
  unfold getNextMove at h
  split at h
  · simp only [Option.some.injEq, Prod.mk.injEq] at h
    rw [← h.2]
  · simp only at h
    split at h
    · exact (getHamiltonianMove_useHamiltonian h).trans rfl
    · split at h
      · simp only [Option.some.injEq, Prod.mk.injEq] at h
        rw [← h.2]
      · exact (getAStarMove_useHamiltonian h).trans rfl
      · simp only [Option.some.injEq, Prod.mk.injEq] at h
        rw [← h.2]
      · exact (getHamiltonianMove_useHamiltonian h).trans rfl

/-- C4, counterexample.  The Easy branch of `setDifficulty` does not write
`useHamiltonian`: an agent whose flag was set to `true` by a previous
`setDifficulty('Impossible')` keeps `useHamiltonian = true` after
`setDifficulty('Easy')`, while the claim demands `false` regardless of the
prior state. -/
theorem C4_counterexample :
    (setDifficulty (setDifficulty (mkSnakeAI 0 4 4) Difficulty.impossible 0)
        Difficulty.easy 0).strategy = Strategy.simple ∧
    (setDifficulty (setDifficulty (mkSnakeAI 0 4 4) Difficulty.impossible 0)
        Difficulty.easy 0).useHamiltonian = true := by
  constructor <;> rfl

/-- C4, amended.  `setDifficulty` deterministically maps each tier to its
base strategy (Easy → simple, Medium → astar, Hard → astar, Expert →
survival, Impossible → hamiltonian).  The Hard and Expert branches set
`useHamiltonian` from the random draw `r` (`r < 0.3`, resp. `r < 0.7`) and
the Impossible branch sets it to `true`, but the Easy and Medium branches
leave the flag *unchanged* from the agent's prior state rather than setting
it to false.  The flag is not re-rolled per tick: `getNextMove` never
writes it. -/
theorem C4_setDifficulty_amended (ai : SnakeAI) (r : ℚ) :
    ((setDifficulty ai Difficulty.easy r).strategy = Strategy.simple
      ∧ (setDifficulty ai Difficulty.easy r).useHamiltonian = ai.useHamiltonian)
    ∧ ((setDifficulty ai Difficulty.medium r).strategy = Strategy.astar
      ∧ (setDifficulty ai Difficulty.medium r).useHamiltonian = ai.useHamiltonian)
    ∧ ((setDifficulty ai Difficulty.hard r).strategy = Strategy.astar
      ∧ ((setDifficulty ai Difficulty.hard r).useHamiltonian = true ↔ r < 3 / 10))
    ∧ ((setDifficulty ai Difficulty.expert r).strategy = Strategy.survival
      ∧ ((setDifficulty ai Difficulty.expert r).useHamiltonian = true ↔ r < 7 / 10))
    ∧ ((setDifficulty ai Difficulty.impossible r).strategy = Strategy.hamiltonian
      ∧ (setDifficulty ai Difficulty.impossible r).useHamiltonian = true)
    ∧ (∀ fuel gameState now d ai',
        getNextMove fuel ai gameState now = some (d, ai') →
          ai'.useHamiltonian = ai.useHamiltonian) := by
  refine ⟨⟨rfl, rfl⟩, ⟨rfl, rfl⟩, ⟨rfl, ?_⟩, ⟨rfl, ?_⟩, ⟨rfl, rfl⟩,
    fun fuel gameState now d ai' h => getNextMove_useHamiltonian h⟩
  · simp [setDifficulty]
  · simp [setDifficulty]

/-- Closed witness for C4's amended statement at a concrete agent, draw and
snapshot (the per-tick clause is discharged on a concrete `getNextMove`
run). -/
theorem C4_setDifficulty_witness :
    (setDifficulty (mkSnakeAI 0 4 4) Difficulty.easy 0).strategy
        = Strategy.simple ∧
    (((getNextMove 100 (mkSnakeAI 0 4 4)
        ⟨⟨2, 2⟩, 4, 4, [], [⟨⟨0, 3⟩, [⟨0, 3⟩, ⟨1, 3⟩], ⟨1, 0⟩, 2⟩]⟩ 0)).map
          (fun p => p.2.useHamiltonian) = some (mkSnakeAI 0 4 4).useHamiltonian) := by
  refine ⟨(C4_setDifficulty_amended (mkSnakeAI 0 4 4) 0).1.1, ?_⟩
  have hrun : (getNextMove 100 (mkSnakeAI 0 4 4)
      ⟨⟨2, 2⟩, 4, 4, [], [⟨⟨0, 3⟩, [⟨0, 3⟩, ⟨1, 3⟩], ⟨1, 0⟩, 2⟩]⟩ 0).isSome = true := by
    decide
  obtain ⟨p, hp⟩ := Option.isSome_iff_exists.mp hrun
  simp only [hp, Option.map_some']
  exact congrArg some
    ((C4_setDifficulty_amended (mkSnakeAI 0 4 4) 0).2.2.2.2.2 100 _ 0 p.1 p.2
      (by rw [hp]))

/-! ## C6: the boustrophedon tour -/

theorem hamRow_chain (w y : Nat) : List.Chain' adjacentCells (hamRow w y) := by
  unfold hamRow
  split
  · rw [List.chain'_map]
    cases w with
    | zero => simp
    | succ n =>
      rw [List.chain'_range_succ]
      intro m _
      show adjacentCells ⟨Int.ofNat m, Int.ofNat y⟩ ⟨Int.ofNat (m + 1), Int.ofNat y⟩
      unfold adjacentCells
      simp only [Int.ofNat_eq_natCast]
      push_cast
      omega
  · rw [List.map_reverse, List.chain'_reverse, List.chain'_map]
    cases w with
    | zero => simp
    | succ n =>
      rw [List.chain'_range_succ]
      intro m _
      show adjacentCells ⟨Int.ofNat (m + 1), Int.ofNat y⟩ ⟨Int.ofNat m, Int.ofNat y⟩
      unfold adjacentCells
      simp only [Int.ofNat_eq_natCast]
      push_cast
      omega

theorem hamRow_ne_nil (w y : Nat) (hw : w ≠ 0) : hamRow w y ≠ [] := by
  unfold hamRow
  split <;> simp [hw, List.range_eq_nil]

theorem hamRow_head (w y : Nat) (hw : w ≠ 0) :
    (hamRow w y).head? =
      some (if y % 2 = 0 then ⟨0, Int.ofNat y⟩
            else ⟨Int.ofNat w - 1, Int.ofNat y⟩) := by
  obtain ⟨n, rfl⟩ := Nat.exists_eq_succ_of_ne_zero hw
  unfold hamRow
  split <;> rename_i hpar
  · rw [List.range_succ_eq_map]
    simp [hpar]
  · rw [List.map_reverse, List.head?_reverse, List.getLast?_map, List.range_succ,
      List.getLast?_concat]
    simp only [hpar, ite_false, Option.map_some', Option.some.injEq]
    simp only [Int.ofNat_eq_natCast]
    congr 1
    push_cast
    ring

theorem hamRow_getLast (w y : Nat) (hw : w ≠ 0) :
    (hamRow w y).getLast? =
      some (if y % 2 = 0 then ⟨Int.ofNat w - 1, Int.ofNat y⟩
            else ⟨0, Int.ofNat y⟩) := by
  obtain ⟨n, rfl⟩ := Nat.exists_eq_succ_of_ne_zero hw
  unfold hamRow
  split <;> rename_i hpar
  · rw [List.getLast?_map, List.range_succ, List.getLast?_concat]
    simp only [hpar, ite_true, Option.map_some', Option.some.injEq]
    simp only [Int.ofNat_eq_natCast]
    congr 1
    push_cast
    ring
  · rw [List.map_reverse, List.getLast?_reverse, List.head?_map,
      List.range_succ_eq_map]
    simp [hpar]

theorem zigzagRows_getLast (w k : Nat) (hw : w ≠ 0) :
    (zigzagRows w (k + 1)).getLast? =
      some (if k % 2 = 0 then ⟨Int.ofNat w - 1, Int.ofNat k⟩
            else ⟨0, Int.ofNat k⟩) := by
  show (zigzagRows w k ++ hamRow w k).getLast? = _
  rw [List.getLast?_append_of_ne_nil _ (hamRow_ne_nil w k hw)]
  exact hamRow_getLast w k hw

theorem zigzagRows_chain (w h : Nat) :
    List.Chain' adjacentCells (zigzagRows w h) := by
  induction h with
  | zero => simp [zigzagRows]
  | succ k ih =>
    show List.Chain' adjacentCells (zigzagRows w k ++ hamRow w k)
    by_cases hw : w = 0
    · subst hw
      have hnil : hamRow 0 k = [] := by
        unfold hamRow
        split <;> simp
      rw [hnil, List.append_nil]
      exact ih
    · refine List.Chain'.append ih (hamRow_chain w k) ?_
      intro x hx z hz
      cases k with
      | zero => simp [zigzagRows] at hx
      | succ j =>
        rw [zigzagRows_getLast w j hw] at hx
        rw [hamRow_head w (j + 1) hw] at hz
        simp only [Option.mem_def, Option.some.injEq] at hx hz
        subst hx
        subst hz
        by_cases hj : j % 2 = 0
        · have hj1 : ¬ ((j + 1) % 2 = 0) := by omega
          simp only [hj, hj1, ite_true, ite_false]
          unfold adjacentCells
          simp only [Int.ofNat_eq_natCast]
          push_cast
          omega
        · have hj1 : (j + 1) % 2 = 0 := by omega
          simp only [hj, hj1, ite_true, ite_false]
          unfold adjacentCells
          simp only [Int.ofNat_eq_natCast]
          push_cast
          omega

/-- C6, counterexample.  On the 3×4 grid (both dimensions within the
threshold, row count even) the generated tour starts at `(0,0)` and ends at
`(0,3)`, and the wrap-around pair from the last position back to the first
differs by 3 on the y axis — it is not 4-adjacent, so the tour is not a
closed loop as claimed. -/
theorem C6_counterexample :
    (generateHamiltonianCycle 3 4).head? = some ⟨0, 0⟩ ∧
    (generateHamiltonianCycle 3 4).getLast? = some ⟨0, 3⟩ ∧
    ¬ adjacentCells ⟨0, 3⟩ ⟨0, 0⟩ := by
  decide

/-- C6, amended.  For every grid within the 20×20 threshold with an even row
count, every pair of *consecutive* positions in the generated boustrophedon
sequence is 4-adjacent; the wrap-around pair from the last position `(0,H-1)`
back to the first `(0,0)` is 4-adjacent only when `H ≤ 2` (it differs by
`H-1` on the y axis), so the sequence does not close into a loop in
general. -/
theorem C6_zigzag_chain_amended (gridWidth gridHeight : Int)
    (hw : gridWidth ≤ 20) (hh : gridHeight ≤ 20)
    (_heven : gridHeight.toNat % 2 = 0) :
    List.Chain' adjacentCells (generateHamiltonianCycle gridWidth gridHeight) := by
  unfold generateHamiltonianCycle
  rw [if_neg]
  · exact zigzagRows_chain gridWidth.toNat gridHeight.toNat
  · simp only [Bool.or_eq_true, decide_eq_true_eq, not_or, not_lt]
    exact ⟨hw, hh⟩

/-- Closed witness for C6's amended statement on the 4×4 grid. -/
theorem C6_zigzag_chain_witness :
    List.Chain' adjacentCells (generateHamiltonianCycle 4 4) :=
  C6_zigzag_chain_amended 4 4 (by decide) (by decide) (by decide)

/-! ## C1, C3: counterexamples to the unit-direction and safety claims -/

/-- C1, counterexample.  Two concrete `getNextMove` runs return non-unit
vectors.  (i) An Impossible-tier agent on the 4×4 grid with its head at
`(0,3)` — the last cycle index — follows the wrap-around to index 0 and
returns `{x:0,y:-3}`.  (ii) An Easy-tier agent whose head coincides with
the food (and whose single-segment body leaves the head cell unoccupied)
returns the zero vector `{x:0,y:0}`. -/
theorem C1_counterexample :
    ((getNextMove 100 (setDifficulty (mkSnakeAI 0 4 4) Difficulty.impossible 0)
        ⟨⟨2, 2⟩, 4, 4, [], [⟨⟨0, 3⟩, [⟨0, 3⟩], ⟨1, 0⟩, 1⟩]⟩ 0).map Prod.fst
      = some ⟨0, -3⟩ ∧ ¬ isUnitDirection ⟨0, -3⟩)
    ∧ ((getNextMove 100 (setDifficulty (mkSnakeAI 0 4 4) Difficulty.easy 0)
        ⟨⟨1, 1⟩, 4, 4, [], [⟨⟨1, 1⟩, [⟨1, 1⟩], ⟨1, 0⟩, 1⟩]⟩ 0).map Prod.fst
      = some ⟨0, 0⟩ ∧ ¬ isUnitDirection ⟨0, 0⟩) := by
  decide

/-- C3, counterexample.  On the 4×4 grid with an obstacle at `(2,0)` and the
head at `(1,0)` (cycle index 1), the Hamiltonian follower returns `{x:1,y:0}`
— straight into the obstacle — even though the left neighbor `(0,0)` is
occupancy-safe. -/
theorem C3_counterexample :
    ((getHamiltonianMove 100 (mkSnakeAI 0 4 4) ⟨⟨1, 0⟩, [⟨1, 0⟩], ⟨1, 0⟩, 1⟩
        ⟨⟨3, 3⟩, 4, 4, [⟨2, 0⟩], [⟨⟨1, 0⟩, [⟨1, 0⟩], ⟨1, 0⟩, 1⟩]⟩ 0).map Prod.fst
      = some ⟨1, 0⟩)
    ∧ isSafeMove ⟨⟨1, 0⟩, [⟨1, 0⟩], ⟨1, 0⟩, 1⟩ ⟨1, 0⟩
        ⟨⟨3, 3⟩, 4, 4, [⟨2, 0⟩], [⟨⟨1, 0⟩, [⟨1, 0⟩], ⟨1, 0⟩, 1⟩]⟩ = false
    ∧ isSafeMove ⟨⟨1, 0⟩, [⟨1, 0⟩], ⟨1, 0⟩, 1⟩ ⟨-1, 0⟩
        ⟨⟨3, 3⟩, 4, 4, [⟨2, 0⟩], [⟨⟨1, 0⟩, [⟨1, 0⟩], ⟨1, 0⟩, 1⟩]⟩ = true := by
  decide

/-! ## C5: the A* path cache -/

/-- The self snake of the cache scenario (two segments, so the head cell is
occupied and A* terminates). -/
def snakeC5 : SnakeState := ⟨⟨0, 0⟩, [⟨0, 0⟩, ⟨0, 1⟩], ⟨1, 0⟩, 2⟩

/-- Snapshot of the first call: food at `(2,0)`, open 5×5 grid. -/
def gameC5a : GameState := ⟨⟨2, 0⟩, 5, 5, [], [snakeC5]⟩

/-- Snapshot of the second call: food moved to `(0,2)`. -/
def gameC5b : GameState := ⟨⟨0, 2⟩, 5, 5, [], [snakeC5]⟩

/-- Snapshot of the third call: food back at `(2,0)`, obstacle at `(1,0)`. -/
def gameC5c : GameState := ⟨⟨2, 0⟩, 5, 5, [⟨1, 0⟩], [snakeC5]⟩

/-- Agent state after the first `getAStarMove` call (at `now = 0`). -/
def agentC5a : SnakeAI :=
  ((getAStarMove 50 (mkSnakeAI 0 5 5) snakeC5 gameC5a 0).map Prod.snd).getD
    (mkSnakeAI 0 5 5)

/-- Agent state after the second `getAStarMove` call (at `now = 400`). -/
def agentC5b : SnakeAI :=
  ((getAStarMove 50 agentC5a snakeC5 gameC5b 400).map Prod.snd).getD agentC5a

/-- C5, counterexample.  The cache validity test compares `now` against the
single global `lastCacheTime`, not against the store time of the entry
served.  The entry for `((0,0),(2,0))` is stored at `now = 0`; a second
entry at `now = 400` refreshes `lastCacheTime`; at `now = 700` the first
entry — now 700 ms old, beyond the 500 ms window — is served (`{x:1,y:0}`,
straight into the freshly placed obstacle), while a cache-free agent
computes `{x:0,y:1}` for the same snapshot. -/
theorem C5_counterexample :
    agentC5a.lastCacheTime = 0
    ∧ agentC5b.lastCacheTime = 400
    ∧ alookup agentC5b.pathCache (⟨0, 0⟩, ⟨2, 0⟩)
        = some [⟨0, 0⟩, ⟨1, 0⟩, ⟨2, 0⟩]
    ∧ ((getAStarMove 50 agentC5b snakeC5 gameC5c 700).map Prod.fst
        = some ⟨1, 0⟩)
    ∧ ((getAStarMove 50 (mkSnakeAI 0 5 5) snakeC5 gameC5c 700).map Prod.fst
        = some ⟨0, 1⟩) := by
  decide

/-- C5, amended.  A cached path is served only when the elapsed time since
the *most recent cache store of any entry* (`now - lastCacheTime`) is below
the 500 ms window; the age of the individual entry served is not consulted,
so an entry can outlive the window (see the counterexample).  Whenever the
global timestamp is stale the cache is bypassed entirely: the returned
direction equals that of a cache-free agent. -/
theorem C5_cache_window_amended (fuel : Nat) (ai : SnakeAI)
    (snake : SnakeState) (gameState : GameState) (now : Int)
    (h : 500 ≤ now - ai.lastCacheTime) :
    (getAStarMove fuel ai snake gameState now).map Prod.fst =
      (getAStarMove fuel { ai with pathCache := [] } snake gameState now).map
        Prod.fst := by
  have hc : (decide (now - ai.lastCacheTime < 500)) = false := by
    simp only [decide_eq_false_iff_not, not_lt]
    omega
  unfold getAStarMove
  simp only [alookup]
  rcases halk : alookup ai.pathCache (snake.head, gameState.food) with _ | p
  all_goals simp only [halk, hc, Bool.false_and, if_false]
  all_goals rcases findPathAStar fuel snake.head gameState.food snake gameState
    with _ | path
  · rfl
  · by_cases hp : 1 < path.length
    · simp [hp]
    · simp [hp]
  · rfl
  · by_cases hp : 1 < path.length
    · simp [hp]
    · simp [hp]

/-! ## C7, C9: nontermination of the A* path reconstruction

On a snapshot whose cells are all unblocked (a single-segment body leaves
even the head cell unoccupied, because the self-body scan skips the last
element), the start cell passes the A* neighbor filter.  Since
`gScore.get(start) = 0` is falsy, the guard `tentative < (gScore.get(...) ||
Infinity)` sees `Infinity` and relaxes the start *back into* `cameFrom`, and
the predecessor map becomes cyclic: reconstruction then loops forever. -/

/-- The self snake of the divergence scenario: single segment at `(0,0)`. -/
def snakeC7 : SnakeState := ⟨⟨0, 0⟩, [⟨0, 0⟩], ⟨1, 0⟩, 1⟩

/-- The divergence snapshot: 3×1 grid, food at `(2,0)`, no obstacles. -/
def gameC7 : GameState := ⟨⟨2, 0⟩, 3, 1, [], [snakeC7]⟩

/-- The predecessor map at the moment the goal is popped: it contains the
cycle `(0,0) ↦ (1,0) ↦ (0,0)`. -/
def cameFromC7 : List (Position × Position) :=
  [(⟨0, 0⟩, ⟨1, 0⟩), (⟨2, 0⟩, ⟨1, 0⟩), (⟨1, 0⟩, ⟨0, 0⟩)]

theorem reconC7_cycle : ∀ fuel acc,
    reconstructPath fuel cameFromC7 ⟨1, 0⟩ acc = none ∧
    reconstructPath fuel cameFromC7 ⟨0, 0⟩ acc = none := by
  intro fuel
  induction fuel with
  | zero => intro acc; exact ⟨rfl, rfl⟩
  | succ n ih =>
    intro acc
    refine ⟨?_, ?_⟩
    · show reconstructPath n cameFromC7 ⟨0, 0⟩ (⟨0, 0⟩ :: acc) = none
      exact (ih _).2
    · show reconstructPath n cameFromC7 ⟨1, 0⟩ (⟨1, 0⟩ :: acc) = none
      exact (ih _).1

theorem findPathAStarC7_diverges :
    ∀ fuel, findPathAStar fuel ⟨0, 0⟩ ⟨2, 0⟩ snakeC7 gameC7 = none := by
  intro fuel
  match fuel with
  | 0 => rfl
  | 1 => rfl
  | 2 => rfl
  | n + 3 =>
    show reconstructPath n cameFromC7 ⟨1, 0⟩ [⟨1, 0⟩, ⟨2, 0⟩] = none
    exact (reconC7_cycle n _).1

/-- C7 (code bug).  On the all-unblocked 3×1 snapshot with in-bounds start
`(0,0)` and goal `(2,0)` at Manhattan distance 2, `findPathAStar` does not
return a path of 2 moves: it never returns at all.  Because the
single-segment body leaves every cell (including the start) unoccupied, the
start is relaxed back into the predecessor map through the falsy
`gScore.get(...) || Infinity` read, the map becomes cyclic, and the
reconstruction `while` loop diverges — `none` for every fuel. -/
theorem C7_astar_divergence :
    (∀ pos : Position, isPositionOccupied pos snakeC7 gameC7 = false)
    ∧ inBounds gameC7 ⟨0, 0⟩ = true
    ∧ inBounds gameC7 ⟨2, 0⟩ = true
    ∧ manhattan ⟨0, 0⟩ ⟨2, 0⟩ = 2
    ∧ (∀ fuel, findPathAStar fuel ⟨0, 0⟩ ⟨2, 0⟩ snakeC7 gameC7 = none) :=
  ⟨fun _ => rfl, rfl, rfl, rfl, findPathAStarC7_diverges⟩

/-- C9 (code bug).  The claim's fallback clauses match the code
(`getSafeMove` is exactly "first safe direction in order right, left, down,
up, else right"), but the clause "the agent always emits a direction" fails:
a Medium-tier agent (strategy astar) on the divergence snapshot never
returns from `getNextMove` — the A* path reconstruction loops forever, so
no direction is ever emitted. -/
theorem C9_facade_divergence :
    ∀ fuel, getNextMove fuel (mkSnakeAI 0 3 1) gameC7 0 = none := by
  intro fuel
  have h := findPathAStarC7_diverges fuel
  show getAStarMove fuel
    { mkSnakeAI 0 3 1 with survivalMode := shouldEnterSurvivalMode snakeC7 gameC7 }
    snakeC7 gameC7 0 = none
  unfold getAStarMove
  simp only [alookup]
  rw [show snakeC7.head = (⟨0, 0⟩ : Position) from rfl,
    show gameC7.food = (⟨2, 0⟩ : Position) from rfl, h]

/-- Closed witness for C5's amended statement: with the concrete cache state
`agentC5b` (`lastCacheTime = 400`) at `now = 900` the window is stale and
the served direction equals the cache-free one. -/
theorem C5_cache_window_witness :
    (getAStarMove 50 agentC5b snakeC5 gameC5c 900).map Prod.fst =
      (getAStarMove 50 { agentC5b with pathCache := [] } snakeC5 gameC5c
        900).map Prod.fst :=
  C5_cache_window_amended 50 agentC5b snakeC5 gameC5c 900 (by decide)

/-! ## Soundness lemmas for the A* planner and the per-strategy safety and
unit-direction results (C1, C3 amended) -/

theorem alookup_mem {α : Type} [DecidableEq α] {β : Type} :
    ∀ {m : List (α × β)} {k : α} {v : β}, alookup m k = some v → (k, v) ∈ m := by
  intro m
  induction m with
  | nil => intro k v h; simp [alookup] at h
  | cons kv rest ih =>
    intro k v h
    rw [alookup] at h
    split at h
    · rename_i heq
      simp only [Option.some.injEq] at h
      subst heq
      subst h
      exact List.mem_cons_self _ _
    · exact List.mem_cons_of_mem _ (ih h)

theorem alookup_none {α : Type} [DecidableEq α] {β : Type} :
    ∀ {m : List (α × β)} {k : α}, alookup m k = none → ∀ v, (k, v) ∉ m := by
  intro m
  induction m with
  | nil => intro k _ v h; simp at h
  | cons kv rest ih =>
    intro k h v hmem
    rw [alookup] at h
    split at h
    · simp at h
    · rename_i hne
      rcases List.mem_cons.mp hmem with heq | hmem'
      · exact hne (by rw [← heq])
      · exact ih h v hmem'

theorem mem_neighbors4_adjacent {p n : Position} (h : n ∈ neighbors4 p) :
    adjacentCells p n := by
  simp only [neighbors4, List.mem_cons, List.not_mem_nil, or_false] at h
  unfold adjacentCells
  rcases h with rfl | rfl | rfl | rfl <;> simp

theorem adjacent_diff_unit {p q : Position} (h : adjacentCells p q) :
    isUnitDirection ⟨q.x - p.x, q.y - p.y⟩ := by
  unfold adjacentCells at h
  unfold isUnitDirection fourDirections
  have : (q.x - p.x = 1 ∧ q.y - p.y = 0) ∨ (q.x - p.x = -1 ∧ q.y - p.y = 0)
      ∨ (q.x - p.x = 0 ∧ q.y - p.y = 1) ∨ (q.x - p.x = 0 ∧ q.y - p.y = -1) := by
    omega
  rcases this with ⟨h1, h2⟩ | ⟨h1, h2⟩ | ⟨h1, h2⟩ | ⟨h1, h2⟩
  all_goals rw [h1, h2]
  all_goals simp

/-- The state produced by a successful relaxation, as an explicit record. -/
theorem relaxNeighbor_eq_pos (goal current : Position) (st : AStarState)
    (n : Position)
    (hrel : ltInf (gRead st.gScore current + 1) (scoreReadInf st.gScore n)
      = true) :
    relaxNeighbor goal current st n =
      { openSet :=
          if st.openSet.any (fun pos => pos == n) then st.openSet
          else st.openSet ++ [n]
        cameFrom := aset st.cameFrom n current
        gScore := aset st.gScore n (gRead st.gScore current + 1)
        fScore := aset st.fScore n
          (gRead st.gScore current + 1 + manhattan n goal) } := by
  simp only [relaxNeighbor]
  rw [if_pos hrel]

theorem relaxNeighbor_eq_neg (goal current : Position) (st : AStarState)
    (n : Position)
    (hrel : ¬ (ltInf (gRead st.gScore current + 1)
      (scoreReadInf st.gScore n) = true)) :
    relaxNeighbor goal current st n = st := by
  simp only [relaxNeighbor]
  rw [if_neg hrel]

/-- The invariant carried through the A* search: every predecessor-map entry
`(n, c)` records an admissible node `n` reached from a 4-adjacent node `c`
that is either the start or itself recorded, and every open node is the
start or recorded. -/
def AStarInv (start : Position) (snake : SnakeState) (gameState : GameState)
    (st : AStarState) : Prop :=
  (∀ p c, (p, c) ∈ st.cameFrom →
    adjacentCells c p ∧ astarAdmissible snake gameState p = true ∧
      (c = start ∨ ∃ v, (c, v) ∈ st.cameFrom))
  ∧ (∀ o ∈ st.openSet, o = start ∨ ∃ v, (o, v) ∈ st.cameFrom)

theorem relaxNeighbor_cameFrom_mono (goal current : Position)
    (st : AStarState) (n : Position) :
    ∀ p c, (p, c) ∈ st.cameFrom →
      (p, c) ∈ (relaxNeighbor goal current st n).cameFrom := by
  intro p c h
  by_cases hrel : ltInf (gRead st.gScore current + 1) (scoreReadInf st.gScore n)
      = true
  · rw [relaxNeighbor_eq_pos goal current st n hrel]
    exact List.mem_cons_of_mem _ h
  · rw [relaxNeighbor_eq_neg goal current st n hrel]
    exact h

theorem relaxNeighbor_inv (start goal current : Position) (snake : SnakeState)
    (gameState : GameState) (st : AStarState) (n : Position)
    (hinv : AStarInv start snake gameState st)
    (hcur : current = start ∨ ∃ v, (current, v) ∈ st.cameFrom)
    (hadj : adjacentCells current n)
    (hadm : astarAdmissible snake gameState n = true) :
    AStarInv start snake gameState (relaxNeighbor goal current st n)
    ∧ (current = start ∨ ∃ v, (current, v) ∈
        (relaxNeighbor goal current st n).cameFrom) := by
  have hmono := relaxNeighbor_cameFrom_mono goal current st n
  have hcur' : current = start ∨ ∃ v, (current, v) ∈
      (relaxNeighbor goal current st n).cameFrom := by
    rcases hcur with h | ⟨v, hv⟩
    · exact Or.inl h
    · exact Or.inr ⟨v, hmono _ _ hv⟩
  refine ⟨⟨?_, ?_⟩, hcur'⟩
  · intro p c hmem
    by_cases hrel : ltInf (gRead st.gScore current + 1)
        (scoreReadInf st.gScore n) = true
    · rw [relaxNeighbor_eq_pos goal current st n hrel] at hmem
      rcases List.mem_cons.mp hmem with heq | hold
      · have hp : p = n ∧ c = current := by
          simpa [Prod.ext_iff] using heq
        rcases hp with ⟨rfl, rfl⟩
        exact ⟨hadj, hadm, hcur'⟩
      · obtain ⟨h1, h2, h3⟩ := hinv.1 p c hold
        refine ⟨h1, h2, ?_⟩
        rcases h3 with h | ⟨v, hv⟩
        · exact Or.inl h
        · exact Or.inr ⟨v, hmono _ _ hv⟩
    · rw [relaxNeighbor_eq_neg goal current st n hrel] at hmem ⊢
      obtain ⟨h1, h2, h3⟩ := hinv.1 p c hmem
      exact ⟨h1, h2, h3⟩
  · intro o ho
    by_cases hrel : ltInf (gRead st.gScore current + 1)
        (scoreReadInf st.gScore n) = true
    · rw [relaxNeighbor_eq_pos goal current st n hrel] at ho ⊢
      have hco : o ∈ st.openSet ∨ o = n := by
        by_cases hany : st.openSet.any (fun pos => pos == n) = true
        · rw [if_pos hany] at ho
          exact Or.inl ho
        · rw [if_neg hany] at ho
          rcases List.mem_append.mp ho with h | h
          · exact Or.inl h
          · exact Or.inr (by simpa using h)
      rcases hco with h | rfl
      · rcases hinv.2 o h with h' | ⟨v, hv⟩
        · exact Or.inl h'
        · exact Or.inr ⟨v, List.mem_cons_of_mem _ hv⟩
      · exact Or.inr ⟨current, List.mem_cons_self _ _⟩
    · rw [relaxNeighbor_eq_neg goal current st n hrel] at ho ⊢
      exact hinv.2 o ho

theorem relaxFold_inv (start goal current : Position) (snake : SnakeState)
    (gameState : GameState) :
    ∀ (ns : List Position) (st : AStarState),
      AStarInv start snake gameState st →
      (current = start ∨ ∃ v, (current, v) ∈ st.cameFrom) →
      (∀ n ∈ ns, adjacentCells current n
        ∧ astarAdmissible snake gameState n = true) →
      AStarInv start snake gameState
        (ns.foldl (relaxNeighbor goal current) st) := by
  intro ns
  induction ns with
  | nil => intro st hinv _ _; exact hinv
  | cons n rest ih =>
    intro st hinv hcur hns
    rw [List.foldl_cons]
    obtain ⟨hn1, hn2⟩ := hns n (List.mem_cons_self _ _)
    obtain ⟨hinv', hcur'⟩ :=
      relaxNeighbor_inv start goal current snake gameState st n hinv hcur hn1 hn2
    exact ih _ hinv' hcur' (fun m hm => hns m (List.mem_cons_of_mem _ hm))

theorem foldl_min_mem (f : Position → Option Nat) :
    ∀ (os : List Position) (o : Position),
      os.foldl (fun best pos => if ltInfInf (f pos) (f best) then pos else best)
        o ∈ o :: os := by
  intro os
  induction os with
  | nil => intro o; simp
  | cons a rest ih =>
    intro o
    rw [List.foldl_cons]
    have h := ih ((fun best pos => if ltInfInf (f pos) (f best) then pos
      else best) o a)
    rcases List.mem_cons.mp h with heq | hmem
    · rw [heq]
      show (if ltInfInf (f a) (f o) then a else o) ∈ o :: a :: rest
      split
      · exact List.mem_cons_of_mem _ (List.mem_cons_self _ _)
      · exact List.mem_cons_self _ _
    · exact List.mem_cons_of_mem _ (List.mem_cons_of_mem _ hmem)

theorem minByFScore_mem (fScore : List (Position × Nat)) (os : List Position)
    (o : Position) : minByFScore fScore o os ∈ o :: os :=
  foldl_min_mem (scoreReadInf fScore) os o

theorem reconstructPath_sound (m : List (Position × Position)) :
    ∀ (fuel : Nat) (cur : Position) (acc p : List Position),
      acc.head? = some cur →
      List.Chain' (fun u v => alookup m v = some u) acc →
      reconstructPath fuel m cur acc = some p →
      ∃ h t, p = h :: t ∧ alookup m h = none ∧
        List.Chain' (fun u v => alookup m v = some u) p := by
  intro fuel
  induction fuel with
  | zero => intro cur acc p _ _ h; simp [reconstructPath] at h
  | succ n ih =>
    intro cur acc p hhead hchain h
    rw [reconstructPath] at h
    split at h
    · rename_i hlk
      simp only [Option.some.injEq] at h
      subst h
      cases acc with
      | nil => simp at hhead
      | cons a t =>
        simp only [List.head?_cons, Option.some.injEq] at hhead
        subst hhead
        exact ⟨a, t, rfl, hlk, hchain⟩
    · rename_i c hlk
      refine ih c (c :: acc) p rfl ?_ h
      rw [List.chain'_cons']
      refine ⟨?_, hchain⟩
      intro y hy
      rw [hhead] at hy
      simp only [Option.mem_def, Option.some.injEq] at hy
      subst hy
      exact hlk

theorem astarLoop_sound (start goal : Position) (snake : SnakeState)
    (gameState : GameState) :
    ∀ (fuel : Nat) (st : AStarState) (p : List Position),
      AStarInv start snake gameState st →
      astarLoop goal snake gameState fuel st = some p →
      2 ≤ p.length →
      ∃ b t, p = start :: b :: t ∧ adjacentCells start b ∧
        astarAdmissible snake gameState b = true := by
  intro fuel
  induction fuel with
  | zero => intro st p _ h _; simp [astarLoop] at h
  | succ n ih =>
    intro st p hinv h hlen
    rw [astarLoop] at h
    split at h
    · rename_i hopen
      simp only [Option.some.injEq] at h
      subst h
      simp at hlen
    · rename_i o os hopen
      simp only at h
      split at h
      · rename_i hgoal
        obtain ⟨hd, t, rfl, hnone, hchain⟩ :=
          reconstructPath_sound st.cameFrom (n + 1) (minByFScore st.fScore o os)
            [minByFScore st.fScore o os] p rfl (List.chain'_singleton _) h
        cases t with
        | nil => simp at hlen
        | cons b t' =>
          rw [List.chain'_cons] at hchain
          obtain ⟨hR, _⟩ := hchain
          have hmem := alookup_mem hR
          obtain ⟨hadj, hadm, hor⟩ := hinv.1 b hd hmem
          have hstart : hd = start := by
            rcases hor with h' | ⟨v, hv⟩
            · exact h'
            · exact absurd hv (alookup_none hnone v)
          subst hstart
          exact ⟨b, t', rfl, hadj, hadm⟩
      · refine ih _ p ?_ h hlen
        apply relaxFold_inv start goal _ snake gameState _ _
        · constructor
          · exact hinv.1
          · intro x hx
            exact hinv.2 x (List.mem_of_mem_erase hx)
        · exact hinv.2 _ (by rw [hopen]; exact minByFScore_mem st.fScore os o)
        · intro m hm
          refine ⟨mem_neighbors4_adjacent (List.mem_of_mem_filter hm), ?_⟩
          exact List.of_mem_filter hm

theorem findPathAStar_sound (fuel : Nat) (start goal : Position)
    (snake : SnakeState) (gameState : GameState) (p : List Position)
    (h : findPathAStar fuel start goal snake gameState = some p)
    (hlen : 2 ≤ p.length) :
    ∃ b t, p = start :: b :: t ∧ adjacentCells start b ∧
      astarAdmissible snake gameState b = true := by
  refine astarLoop_sound start goal snake gameState fuel _ p ⟨?_, ?_⟩ h hlen
  · intro q c hq
    simp at hq
  · intro o ho
    simp only [List.mem_singleton] at ho
    exact Or.inl ho

theorem sign_unit {a : Int} (h : a ≠ 0) :
    isUnitDirection ⟨a.sign, 0⟩ ∧ isUnitDirection ⟨0, a.sign⟩ := by
  have : a.sign = 1 ∨ a.sign = -1 := by
    rcases lt_trichotomy a 0 with h1 | h1 | h1
    · exact Or.inr (Int.sign_eq_neg_one_of_neg h1)
    · exact absurd h1 h
    · exact Or.inl (Int.sign_eq_one_of_pos h1)
  rcases this with h1 | h1
  all_goals rw [h1]
  all_goals exact ⟨by simp [isUnitDirection, fourDirections],
    by simp [isUnitDirection, fourDirections]⟩

theorem mem_fourDirections_unit {d : Position} (h : d ∈ fourDirections) :
    isUnitDirection d := h

theorem getSafeMove_cases (snake : SnakeState) (gameState : GameState) :
    getSafeMove snake gameState = ⟨1, 0⟩ ∨
      (getSafeMove snake gameState ∈ fourDirections ∧
        isSafeMove snake (getSafeMove snake gameState) gameState = true) := by
  unfold getSafeMove
  split
  · exact Or.inl rfl
  · rename_i d rest heq
    have hd : d ∈ fourDirections.filter
        (fun dir => isSafeMove snake dir gameState) := by
      rw [heq]
      exact List.mem_cons_self _ _
    exact Or.inr ⟨(List.mem_filter.mp hd).1, (List.mem_filter.mp hd).2⟩

theorem getSafeMove_unit (snake : SnakeState) (gameState : GameState) :
    isUnitDirection (getSafeMove snake gameState) := by
  rcases getSafeMove_cases snake gameState with h | ⟨h, _⟩
  · rw [h]; simp [isUnitDirection, fourDirections]
  · exact h

theorem getSafeMove_safe (snake : SnakeState) (gameState : GameState)
    (hex : fourDirections.filter (fun dir => isSafeMove snake dir gameState)
      ≠ []) :
    isSafeMove snake (getSafeMove snake gameState) gameState = true := by
  unfold getSafeMove
  split
  · rename_i heq
    exact absurd heq hex
  · rename_i d rest heq
    have hd : d ∈ fourDirections.filter
        (fun dir => isSafeMove snake dir gameState) := by
      rw [heq]
      exact List.mem_cons_self _ _
    exact (List.mem_filter.mp hd).2

theorem getSimpleMove_safe (snake : SnakeState) (gameState : GameState)
    (hex : fourDirections.filter (fun dir => isSafeMove snake dir gameState)
      ≠ []) :
    isSafeMove snake (getSimpleMove snake gameState) gameState = true := by
  unfold getSimpleMove
  simp only
  split
  all_goals split
  · rename_i h
    exact h
  · split
    · rename_i heq
      exact absurd heq hex
    · rename_i d rest heq
      have hd : d ∈ fourDirections.filter
          (fun dir => isSafeMove snake dir gameState) := by
        rw [heq]
        exact List.mem_cons_self _ _
      exact (List.mem_filter.mp hd).2
  · rename_i h
    exact h
  · split
    · rename_i heq
      exact absurd heq hex
    · rename_i d rest heq
      have hd : d ∈ fourDirections.filter
          (fun dir => isSafeMove snake dir gameState) := by
        rw [heq]
        exact List.mem_cons_self _ _
      exact (List.mem_filter.mp hd).2

theorem getSimpleMove_unit (snake : SnakeState) (gameState : GameState)
    (hne : snake.head ≠ gameState.food) :
    isUnitDirection (getSimpleMove snake gameState) := by
  have hor : (gameState.food.x - snake.head.x ≠ 0)
      ∨ (gameState.food.y - snake.head.y ≠ 0) := by
    by_contra hc
    push_neg at hc
    apply hne
    have hx : snake.head.x = gameState.food.x := by omega
    have hy : snake.head.y = gameState.food.y := by omega
    calc snake.head = ⟨snake.head.x, snake.head.y⟩ := rfl
      _ = ⟨gameState.food.x, gameState.food.y⟩ := by rw [hx, hy]
      _ = gameState.food := rfl
  unfold getSimpleMove
  simp only
  split
  all_goals split
  · rename_i habs _
    have hdx : gameState.food.x - snake.head.x ≠ 0 := by
      intro h0
      rw [h0] at habs
      simp at habs
    exact (sign_unit hdx).1
  · split
    · simp [isUnitDirection, fourDirections]
    · rename_i d rest heq
      have hd : d ∈ fourDirections.filter
          (fun dir => isSafeMove snake dir gameState) := by
        rw [heq]
        exact List.mem_cons_self _ _
      exact (List.mem_filter.mp hd).1
  · rename_i habs _
    have hdy : gameState.food.y - snake.head.y ≠ 0 := by
      rcases hor with h | h
      · intro h0
        rw [h0] at habs
        simp only [Int.natAbs_zero, gt_iff_lt, not_lt, Nat.le_zero,
          Int.natAbs_eq_zero] at habs
        exact h habs
      · exact h
    exact (sign_unit hdy).2
  · split
    · simp [isUnitDirection, fourDirections]
    · rename_i d rest heq
      have hd : d ∈ fourDirections.filter
          (fun dir => isSafeMove snake dir gameState) := by
        rw [heq]
        exact List.mem_cons_self _ _
      exact (List.mem_filter.mp hd).1

theorem survivalStep_cases (snake : SnakeState) (gameState : GameState)
    (best : Position × Int) (d : Position) :
    survivalStep snake gameState best d = best ∨
      (isSafeMove snake d gameState = true ∧
        survivalStep snake gameState best d =
          (d, (countAvailableSpace
            ⟨snake.head.x + d.x, snake.head.y + d.y⟩ snake gameState : Int)) ∧
        0 ≤ (survivalStep snake gameState best d).2) := by
  unfold survivalStep
  simp only
  split
  · rename_i hsafe
    split
    · rename_i hgt
      refine Or.inr ⟨hsafe, rfl, ?_⟩
      positivity
    · exact Or.inl rfl
  · exact Or.inl rfl

theorem survivalFold_mem (snake : SnakeState) (gameState : GameState) :
    ∀ (l : List Position) (best : Position × Int),
      (l.foldl (survivalStep snake gameState) best).1 = best.1 ∨
        (l.foldl (survivalStep snake gameState) best).1 ∈ l := by
  intro l
  induction l with
  | nil => intro best; exact Or.inl rfl
  | cons d rest ih =>
    intro best
    rw [List.foldl_cons]
    rcases ih (survivalStep snake gameState best d) with h | h
    · rw [h]
      rcases survivalStep_cases snake gameState best d with h' | ⟨_, h', _⟩
      · rw [h']
        exact Or.inl rfl
      · rw [h']
        exact Or.inr (List.mem_cons_self _ _)
    · exact Or.inr (List.mem_cons_of_mem _ h)

theorem survivalFold_safe (snake : SnakeState) (gameState : GameState) :
    ∀ (l : List Position) (best : Position × Int),
      (0 ≤ best.2 → isSafeMove snake best.1 gameState = true) →
      ((∃ d ∈ l, isSafeMove snake d gameState = true) ∨ 0 ≤ best.2) →
      isSafeMove snake (l.foldl (survivalStep snake gameState) best).1
          gameState = true ∧
        0 ≤ (l.foldl (survivalStep snake gameState) best).2 := by
  intro l
  induction l with
  | nil =>
    intro best hbest hdisj
    rcases hdisj with ⟨d, hd, _⟩ | hge
    · simp at hd
    · exact ⟨hbest hge, hge⟩
  | cons d rest ih =>
    intro best hbest hdisj
    rw [List.foldl_cons]
    by_cases hsafe : isSafeMove snake d gameState = true
    · unfold survivalStep
      simp only [hsafe, if_true]
      split
      · refine ih _ (fun _ => hsafe) (Or.inr ?_)
        positivity
      · rename_i hgt
        have hge : 0 ≤ best.2 := by
          simp only [not_lt] at hgt
          exact le_trans (by positivity) hgt
        exact ih _ hbest (Or.inr hge)
    · unfold survivalStep
      simp only [hsafe, if_false]
      refine ih _ hbest ?_
      rcases hdisj with ⟨d', hd', hs'⟩ | hge
      · rcases List.mem_cons.mp hd' with rfl | hmem
        · exact absurd hs' hsafe
        · exact Or.inl ⟨d', hmem, hs'⟩
      · exact Or.inr hge

theorem getSurvivalMove_mem (snake : SnakeState) (gameState : GameState) :
    getSurvivalMove snake gameState ∈ fourDirections := by
  unfold getSurvivalMove
  rcases survivalFold_mem snake gameState fourDirections (⟨1, 0⟩, -1) with h | h
  · rw [h]
    simp [fourDirections]
  · exact h

theorem getSurvivalMove_unit (snake : SnakeState) (gameState : GameState) :
    isUnitDirection (getSurvivalMove snake gameState) :=
  getSurvivalMove_mem snake gameState

theorem getSurvivalMove_safe (snake : SnakeState) (gameState : GameState)
    (hex : fourDirections.filter (fun dir => isSafeMove snake dir gameState)
      ≠ []) :
    isSafeMove snake (getSurvivalMove snake gameState) gameState = true := by
  unfold getSurvivalMove
  have hexists : ∃ d ∈ fourDirections, isSafeMove snake d gameState = true := by
    rcases hf : fourDirections.filter
        (fun dir => isSafeMove snake dir gameState) with _ | ⟨d, rest⟩
    · exact absurd hf hex
    · have hd : d ∈ fourDirections.filter
          (fun dir => isSafeMove snake dir gameState) := by
        rw [hf]
        exact List.mem_cons_self _ _
      exact ⟨d, (List.mem_filter.mp hd).1, (List.mem_filter.mp hd).2⟩
  exact (survivalFold_safe snake gameState fourDirections (⟨1, 0⟩, -1)
    (fun hge => absurd hge (by norm_num)) (Or.inl hexists)).1

theorem isSafeMove_toward (snake : SnakeState) (gameState : GameState)
    (b : Position) :
    isSafeMove snake ⟨b.x - snake.head.x, b.y - snake.head.y⟩ gameState =
      astarAdmissible snake gameState b := by
  have hx : snake.head.x + (b.x - snake.head.x) = b.x := by ring
  have hy : snake.head.y + (b.y - snake.head.y) = b.y := by ring
  unfold isSafeMove astarAdmissible
  simp only [hx, hy]

theorem getAStarMove_empty_cache (fuel : Nat) (ai : SnakeAI)
    (snake : SnakeState) (gameState : GameState) (now : Int) (d : Position)
    (ai' : SnakeAI) (hcache : ai.pathCache = [])
    (h : getAStarMove fuel ai snake gameState now = some (d, ai')) :
    (isSafeMove snake d gameState = true ∧ isUnitDirection d) ∨
      d = getSafeMove snake gameState := by
  unfold getAStarMove at h
  rw [hcache] at h
  simp only [alookup] at h
  split at h
  · exact absurd h (by simp)
  · rename_i path hpath
    split at h
    · rename_i hlen
      simp only [Option.some.injEq, Prod.mk.injEq] at h
      obtain ⟨hd, _⟩ := h
      obtain ⟨b, t, rfl, hadj, hadm⟩ := findPathAStar_sound fuel snake.head
        gameState.food snake gameState path hpath (by omega)
      simp only [List.getD_cons_succ, List.getD_cons_zero] at hd
      subst hd
      refine Or.inl ⟨?_, adjacent_diff_unit hadj⟩
      rw [isSafeMove_toward]
      exact hadm
    · simp only [Option.some.injEq, Prod.mk.injEq] at h
      exact Or.inr h.1.symm

/-- C3, amended.  If an occupancy-safe direction exists, the simple and
survival strategies, the shared `getSafeMove` fallback, and the A* strategy
when its cache is empty (so no cached path is served) and it returns, all
return a direction whose target cell is in bounds and unoccupied.  The
Hamiltonian follower is excluded: it performs no occupancy check and can
collide even when safe directions exist (see the counterexample); a cached
A* path is likewise served without re-validation. -/
theorem C3_safe_strategies_amended (fuel : Nat) (ai : SnakeAI)
    (snake : SnakeState) (gameState : GameState) (now : Int) (d : Position)
    (ai' : SnakeAI) (hcache : ai.pathCache = [])
    (hex : fourDirections.filter (fun dir => isSafeMove snake dir gameState)
      ≠ []) :
    isSafeMove snake (getSimpleMove snake gameState) gameState = true
    ∧ isSafeMove snake (getSurvivalMove snake gameState) gameState = true
    ∧ isSafeMove snake (getSafeMove snake gameState) gameState = true
    ∧ (getAStarMove fuel ai snake gameState now = some (d, ai') →
        isSafeMove snake d gameState = true) := by
  refine ⟨getSimpleMove_safe _ _ hex, getSurvivalMove_safe _ _ hex,
    getSafeMove_safe _ _ hex, fun h => ?_⟩
  rcases getAStarMove_empty_cache fuel ai snake gameState now d ai' hcache h
    with ⟨hs, _⟩ | rfl
  · exact hs
  · exact getSafeMove_safe _ _ hex

/-- The snake of the C3 witness scenario. -/
def snakeC3w : SnakeState := ⟨⟨2, 2⟩, [⟨2, 2⟩, ⟨2, 3⟩], ⟨1, 0⟩, 2⟩

/-- The snapshot of the C3 witness scenario: open 5×5 grid, food at (4,2). -/
def gameC3w : GameState := ⟨⟨4, 2⟩, 5, 5, [], [snakeC3w]⟩

/-- Closed witness for C3's amended statement on a concrete 5×5 snapshot
(the A* clause is discharged on a concrete cache-free run). -/
theorem C3_safe_strategies_witness :
    isSafeMove snakeC3w (getSimpleMove snakeC3w gameC3w) gameC3w = true
    ∧ isSafeMove snakeC3w (getSurvivalMove snakeC3w gameC3w) gameC3w = true
    ∧ isSafeMove snakeC3w (getSafeMove snakeC3w gameC3w) gameC3w = true
    ∧ isSafeMove snakeC3w
        (((getAStarMove 100 (mkSnakeAI 0 5 5) snakeC3w gameC3w 0).map
          Prod.fst).getD ⟨0, 0⟩) gameC3w = true := by
  obtain ⟨p, hp⟩ := Option.isSome_iff_exists.mp
    (show (getAStarMove 100 (mkSnakeAI 0 5 5) snakeC3w gameC3w 0).isSome = true
      by decide)
  have hmain := C3_safe_strategies_amended 100 (mkSnakeAI 0 5 5) snakeC3w
    gameC3w 0 p.1 p.2 rfl (by decide)
  refine ⟨hmain.1, hmain.2.1, hmain.2.2.1, ?_⟩
  rw [hp]
  simp only [Option.map_some', Option.getD_some]
  exact hmain.2.2.2 (by rw [hp])

/-! ## C8: exactness of the bounded flood fill -/

/-- One admissibility step of the flood fill: `q` is a 4-neighbor of `p`
that passes the bounds test and the occupancy oracle. -/
def floodStep (snake : SnakeState) (gameState : GameState)
    (p q : Position) : Prop :=
  q ∈ neighbors4 p ∧ inBounds gameState q = true ∧
    isPositionOccupied q snake gameState = false

instance (snake : SnakeState) (gameState : GameState) (p q : Position) :
    Decidable (floodStep snake gameState p q) := by
  unfold floodStep; infer_instance

theorem nodup_subset_length {l1 l2 : List Position} (h : l1.Nodup)
    (hs : l1 ⊆ l2) : l1.length ≤ l2.length := by
  calc l1.length = l1.toFinset.card := (List.toFinset_card_of_nodup h).symm
    _ ≤ l2.toFinset.card := Finset.card_le_card (fun x hx => by
        rw [List.mem_toFinset] at hx ⊢
        exact hs hx)
    _ ≤ l2.length := l2.toFinset_card_le

theorem mem_floodNeighbors_iff (snake : SnakeState) (gameState : GameState)
    (visited : List Position) (pos q : Position) :
    q ∈ floodNeighbors snake gameState visited pos ↔
      floodStep snake gameState pos q ∧ q ∉ visited := by
  unfold floodNeighbors floodStep
  rw [List.mem_filter]
  constructor
  · rintro ⟨h1, hcond⟩
    rw [Bool.and_eq_true, Bool.and_eq_true] at hcond
    obtain ⟨⟨h2, h3⟩, h4⟩ := hcond
    have h3' : isPositionOccupied q snake gameState = false := by simpa using h3
    have h4' : q ∉ visited := by simpa using h4
    exact ⟨⟨h1, h2, h3'⟩, h4'⟩
  · rintro ⟨⟨h1, h2, h3⟩, h4⟩
    refine ⟨h1, ?_⟩
    rw [Bool.and_eq_true, Bool.and_eq_true]
    exact ⟨⟨h2, by simpa using h3⟩, by simpa using h4⟩

/-- The key loop lemma: whenever `queue`, `visited` and `count` satisfy the
breadth-first-search invariants over the region `S` (the set of cells
reachable from `start` through admissible steps) and the fuel dominates the
termination measure, the loop returns `min S.length 100`. -/
theorem floodLoop_exact (snake : SnakeState) (gameState : GameState)
    (S : List Position) (start : Position)
    (hnd : S.Nodup)
    (hclosed : ∀ p ∈ S, ∀ q, floodStep snake gameState p q → q ∈ S)
    (hconn : ∀ t ∈ S, Relation.ReflTransGen (floodStep snake gameState)
      start t) :
    ∀ (fuel : Nat) (queue visited : List Position) (count : Nat),
      5 * (100 - count) + queue.length ≤ fuel →
      visited.Nodup →
      (∀ v ∈ visited, v ∈ S) →
      (∀ q ∈ queue, q ∈ S) →
      count = visited.length →
      count ≤ 100 →
      (∀ p ∈ visited, ∀ q, floodStep snake gameState p q →
        q ∈ visited ∨ q ∈ queue) →
      (start ∈ visited ∨ start ∈ queue) →
      floodLoop snake gameState fuel queue visited count = min S.length 100 := by
  have exit1 : ∀ (visited : List Position) (count : Nat),
      visited.Nodup → (∀ v ∈ visited, v ∈ S) → count = visited.length →
      count = 100 → count = min S.length 100 := by
    intro visited count h1 h2 h3 h4
    have hle : 100 ≤ S.length := by
      have := nodup_subset_length h1 (fun v hv => h2 v hv)
      omega
    omega
  have exit2 : ∀ (visited : List Position) (count : Nat),
      visited.Nodup → (∀ v ∈ visited, v ∈ S) → count = visited.length →
      count ≤ 100 →
      (∀ p ∈ visited, ∀ q, floodStep snake gameState p q → q ∈ visited) →
      start ∈ visited → count = min S.length 100 := by
    intro visited count h1 h2 h3 h5 h6 h7
    have hSv : ∀ t ∈ S, t ∈ visited := by
      intro t htS
      have hreach := hconn t htS
      clear htS
      induction hreach with
      | refl => exact h7
      | tail h1' h2' ih => exact h6 _ ih _ h2'
    have hle1 : S.length ≤ visited.length := nodup_subset_length hnd hSv
    have hle2 : visited.length ≤ S.length :=
      nodup_subset_length h1 (fun v hv => h2 v hv)
    omega
  intro fuel
  induction fuel with
  | zero =>
    intro queue visited count hfuel h1 h2 h3 h4 h5 h6 h7
    have hc : count = 100 := by omega
    rw [floodLoop]
    exact exit1 visited count h1 h2 h4 hc
  | succ n ih =>
    intro queue visited count hfuel h1 h2 h3 h4 h5 h6 h7
    cases queue with
    | nil =>
      rw [floodLoop]
      refine exit2 visited count h1 h2 h4 h5 ?_ ?_
      · intro p hp q hq
        rcases h6 p hp q hq with h | h
        · exact h
        · simp at h
      · rcases h7 with h | h
        · exact h
        · simp at h
    | cons pos rest =>
      rw [floodLoop]
      by_cases hc : 100 ≤ count
      · rw [if_pos hc]
        exact exit1 visited count h1 h2 h4 (by omega)
      · rw [if_neg hc]
        by_cases hv : pos ∈ visited
        · rw [if_pos hv]
          refine ih rest visited count ?_ h1 h2 ?_ h4 h5 ?_ ?_
          · simp only [List.length_cons] at hfuel
            omega
          · exact fun q hq => h3 q (List.mem_cons_of_mem _ hq)
          · intro p hp q hq
            rcases h6 p hp q hq with h | h
            · exact Or.inl h
            · rcases List.mem_cons.mp h with rfl | h'
              · exact Or.inl hv
              · exact Or.inr h'
          · rcases h7 with h | h
            · exact Or.inl h
            · rcases List.mem_cons.mp h with rfl | h'
              · exact Or.inl hv
              · exact Or.inr h'
        · rw [if_neg hv]
          have hposS : pos ∈ S := h3 pos (List.mem_cons_self _ _)
          have hlen := floodNeighbors_length_le snake gameState
            (pos :: visited) pos
          refine ih _ (pos :: visited) (count + 1) ?_ ?_ ?_ ?_ ?_ ?_ ?_ ?_
          · simp only [List.length_cons, List.length_append] at hfuel ⊢
            omega
          · exact List.nodup_cons.mpr ⟨hv, h1⟩
          · intro v hvv
            rcases List.mem_cons.mp hvv with rfl | h'
            · exact hposS
            · exact h2 v h'
          · intro q hq
            rcases List.mem_append.mp hq with h' | h'
            · exact h3 q (List.mem_cons_of_mem _ h')
            · have := (mem_floodNeighbors_iff snake gameState
                (pos :: visited) pos q).mp h'
              exact hclosed pos hposS q this.1
          · simp [h4]
          · omega
          · intro p hp q hq
            rcases List.mem_cons.mp hp with rfl | hp'
            · by_cases hqv : q ∈ p :: visited
              · exact Or.inl hqv
              · refine Or.inr (List.mem_append.mpr (Or.inr ?_))
                exact (mem_floodNeighbors_iff snake gameState
                  (p :: visited) p q).mpr ⟨hq, hqv⟩
            · rcases h6 p hp' q hq with h' | h'
              · exact Or.inl (List.mem_cons_of_mem _ h')
              · rcases List.mem_cons.mp h' with rfl | h''
                · exact Or.inl (List.mem_cons_self _ _)
                · exact Or.inr (List.mem_append.mpr (Or.inl h''))
          · rcases h7 with h | h
            · exact Or.inl (List.mem_cons_of_mem _ h)
            · rcases List.mem_cons.mp h with rfl | h'
              · exact Or.inl (List.mem_cons_self _ _)
              · exact Or.inr (List.mem_append.mpr (Or.inl h'))

/-- C8.  For every region `S` that is exactly the set of cells reachable
from `start` through the flood fill's admissibility test (`S` duplicate-free,
containing `start`, closed under admissible steps, and with every member
reachable from `start`), `countAvailableSpace` returns `min S.length 100`:
exactly `k = S.length` for a fully enclosed `k`-cell room with `k` below the
exploration cap, and exactly the cap `100` when the reachable region has at
least 100 cells. -/
theorem C8_flood_count_exact (start : Position) (snake : SnakeState)
    (gameState : GameState) (S : List Position)
    (hnd : S.Nodup)
    (hstart : start ∈ S)
    (hclosed : ∀ p ∈ S, ∀ q, floodStep snake gameState p q → q ∈ S)
    (hconn : ∀ t ∈ S, Relation.ReflTransGen (floodStep snake gameState)
      start t) :
    countAvailableSpace start snake gameState = min S.length 100 := by
  rw [countAvailableSpace]
  refine floodLoop_exact snake gameState S start hnd hclosed hconn 501
    [start] [] 0 (by simp) (by simp) (by simp) ?_ rfl (by omega)
    (by simp) (Or.inr (List.mem_singleton.mpr rfl))
  intro q hq
  rw [List.mem_singleton.mp hq]
  exact hstart

/-- Closed witness for C8 on the fully enclosed 1-cell room of the 1×1
grid. -/
theorem C8_flood_count_witness :
    countAvailableSpace ⟨0, 0⟩ ⟨⟨0, 0⟩, [], ⟨1, 0⟩, 0⟩
      ⟨⟨0, 0⟩, 1, 1, [], []⟩ = min ([(⟨0, 0⟩ : Position)].length) 100 := by
  refine C8_flood_count_exact ⟨0, 0⟩ ⟨⟨0, 0⟩, [], ⟨1, 0⟩, 0⟩
    ⟨⟨0, 0⟩, 1, 1, [], []⟩ [⟨0, 0⟩] (by decide) (by decide) ?_ ?_
  · intro p hp q hq
    rw [List.mem_singleton.mp hp] at hq
    obtain ⟨hmem, hbound, _⟩ := hq
    simp only [neighbors4, List.mem_cons, List.not_mem_nil, or_false] at hmem
    rcases hmem with rfl | rfl | rfl | rfl
    all_goals exact absurd hbound (by decide)
  · intro t ht
    rw [List.mem_singleton.mp ht]

/-! ## C1: the construction invariant and the amended unit-direction result

The path cache only ever receives paths produced by a terminating A*
reconstruction, which start at the keyed head with a 4-adjacent second
cell, and the Hamiltonian cycle is written only by the constructor.  Both
facts are captured by `AgentInv`, established by `mkSnakeAI` and preserved
by `setDifficulty`, `resetAI` and every `getNextMove` call, so cached
serves also yield unit directions in every reachable agent state. -/

/-- Well-formedness of the path cache: every stored path with more than one
node has a second cell 4-adjacent to the head it is keyed by. -/
def pathCacheWF
    (pathCache : List ((Position × Position) × List Position)) : Prop :=
  ∀ key path, alookup pathCache key = some path → 1 < path.length →
    adjacentCells key.1 (path.getD 1 default)

theorem pathCacheWF_nil : pathCacheWF [] := by
  intro key path h
  simp [alookup] at h

theorem pathCacheWF_aset (pathCache : List ((Position × Position) ×
      List Position)) (k : Position × Position) (p : List Position)
    (hwf : pathCacheWF pathCache)
    (hp : 1 < p.length → adjacentCells k.1 (p.getD 1 default)) :
    pathCacheWF (aset pathCache k p) := by
  intro key path h hlen
  rw [aset, alookup] at h
  split at h
  · rename_i heq
    simp only [Option.some.injEq] at h
    subst h
    rw [← heq]
    exact hp hlen
  · exact hwf key path h hlen

/-- The construction invariant of an agent: a well-formed path cache and
the Hamiltonian cycle generated from the agent's own grid dimensions. -/
def AgentInv (ai : SnakeAI) : Prop :=
  pathCacheWF ai.pathCache ∧
    ai.hamiltonianCycle = generateHamiltonianCycle ai.gridWidth ai.gridHeight

theorem mkSnakeAI_inv (playerId : Nat) (gridWidth gridHeight : Int) :
    AgentInv (mkSnakeAI playerId gridWidth gridHeight) :=
  ⟨pathCacheWF_nil, rfl⟩

theorem setDifficulty_inv (ai : SnakeAI) (difficulty : Difficulty) (r : ℚ)
    (hinv : AgentInv ai) : AgentInv (setDifficulty ai difficulty r) := by
  cases difficulty <;> exact hinv

theorem resetAI_inv (ai : SnakeAI) (hinv : AgentInv ai) :
    AgentInv (resetAI ai) :=
  ⟨pathCacheWF_nil, hinv.2⟩

theorem getAStarMove_inv {fuel : Nat} {ai : SnakeAI} {snake : SnakeState}
    {gameState : GameState} {now : Int} {d : Position} {ai' : SnakeAI}
    (hinv : AgentInv ai)
    (h : getAStarMove fuel ai snake gameState now = some (d, ai')) :
    AgentInv ai' := by
  unfold getAStarMove at h
  simp only at h
  split at h
  · simp only [Option.some.injEq, Prod.mk.injEq] at h
    rw [← h.2]
    exact hinv
  · split at h
    · exact absurd h (by simp)
    · rename_i path hpath
      split at h
      · rename_i hlen
        simp only [Option.some.injEq, Prod.mk.injEq] at h
        rw [← h.2]
        refine ⟨pathCacheWF_aset _ _ _ hinv.1 fun hlen2 => ?_, hinv.2⟩
        obtain ⟨b, t, rfl, hadj, _⟩ := findPathAStar_sound fuel snake.head
          gameState.food snake gameState path hpath (by omega)
        simp only [List.getD_cons_succ, List.getD_cons_zero]
        exact hadj
      · simp only [Option.some.injEq, Prod.mk.injEq] at h
        rw [← h.2]
        exact hinv

theorem getHamiltonianMove_inv {fuel : Nat} {ai : SnakeAI}
    {snake : SnakeState} {gameState : GameState} {now : Int} {d : Position}
    {ai' : SnakeAI} (hinv : AgentInv ai)
    (h : getHamiltonianMove fuel ai snake gameState now = some (d, ai')) :
    AgentInv ai' := by
  unfold getHamiltonianMove at h
  split at h
  · simp only [Option.some.injEq, Prod.mk.injEq] at h
    rw [← h.2]
    exact hinv
  · split at h
    · exact getAStarMove_inv hinv h
    · simp only [Option.some.injEq, Prod.mk.injEq] at h
      rw [← h.2]
      exact hinv

theorem getNextMove_inv {fuel : Nat} {ai : SnakeAI} {gameState : GameState}
    {now : Int} {d : Position} {ai' : SnakeAI} (hinv : AgentInv ai)
    (h : getNextMove fuel ai gameState now = some (d, ai')) :
    AgentInv ai' := by
  unfold getNextMove at h
  split at h
  · simp only [Option.some.injEq, Prod.mk.injEq] at h
    rw [← h.2]
    exact hinv
  · simp only at h
    split at h
    · exact getHamiltonianMove_inv (by exact hinv) h
    · split at h
      · simp only [Option.some.injEq, Prod.mk.injEq] at h
        rw [← h.2]
        exact hinv
      · exact getAStarMove_inv (by exact hinv) h
      · simp only [Option.some.injEq, Prod.mk.injEq] at h
        rw [← h.2]
        exact hinv
      · exact getHamiltonianMove_inv (by exact hinv) h

/-- Any `getAStarMove` result under a well-formed cache is a unit
direction: a cached serve steps to the stored path's second cell, adjacent
to the keyed head; a fresh path's second cell is adjacent to the start by
`findPathAStar_sound`; and the no-path fallback is `getSafeMove`. -/
theorem getAStarMove_unit {fuel : Nat} {ai : SnakeAI} {snake : SnakeState}
    {gameState : GameState} {now : Int} {d : Position} {ai' : SnakeAI}
    (hwf : pathCacheWF ai.pathCache)
    (h : getAStarMove fuel ai snake gameState now = some (d, ai')) :
    isUnitDirection d := by
  unfold getAStarMove at h
  simp only at h
  split at h
  · rename_i direction heq
    simp only [Option.some.injEq, Prod.mk.injEq] at h
    rw [← h.1]
    split at heq
    · exact absurd heq (by simp)
    · rename_i cachedPath halk
      split at heq
      · rename_i hcond
        simp only [Option.some.injEq] at heq
        rw [← heq]
        rw [Bool.and_eq_true] at hcond
        have hlen : 1 < cachedPath.length := by simpa using hcond.2
        exact adjacent_diff_unit
          (hwf (snake.head, gameState.food) cachedPath halk hlen)
      · exact absurd heq (by simp)
  · split at h
    · exact absurd h (by simp)
    · rename_i path hpath
      split at h
      · rename_i hlen
        simp only [Option.some.injEq, Prod.mk.injEq] at h
        obtain ⟨b, t, rfl, hadj, _⟩ := findPathAStar_sound fuel snake.head
          gameState.food snake gameState path hpath (by omega)
        rw [← h.1]
        simp only [List.getD_cons_succ, List.getD_cons_zero]
        exact adjacent_diff_unit hadj
      · simp only [Option.some.injEq, Prod.mk.injEq] at h
        rw [← h.1]
        exact getSafeMove_unit snake gameState

theorem generateHamiltonianCycle_chain (gridWidth gridHeight : Int) :
    List.Chain' adjacentCells (generateHamiltonianCycle gridWidth gridHeight)
    := by
  unfold generateHamiltonianCycle
  split
  · exact List.chain'_nil
  · exact zigzagRows_chain gridWidth.toNat gridHeight.toNat

theorem findIdx_go_spec {α : Type} {p : α → Bool} :
    ∀ (l : List α) (s i : Nat), List.findIdx? p l s = some i →
      s ≤ i ∧ ∃ x, l.get? (i - s) = some x ∧ p x = true := by
  intro l
  induction l with
  | nil =>
    intro s i h
    rw [List.findIdx?_nil] at h
    simp at h
  | cons a rest ih =>
    intro s i h
    rw [List.findIdx?_cons] at h
    split at h
    · rename_i hpa
      simp only [Option.some.injEq] at h
      subst h
      exact ⟨le_refl _, a, by simp, hpa⟩
    · obtain ⟨hle, x, hg, hp⟩ := ih (s + 1) i h
      refine ⟨by omega, x, ?_, hp⟩
      have heq : i - s = (i - (s + 1)) + 1 := by omega
      rw [heq, List.get?_cons_succ]
      exact hg

theorem findIdx_spec {α : Type} {p : α → Bool} {l : List α} {i : Nat}
    (h : List.findIdx? p l = some i) :
    ∃ x, l.get? i = some x ∧ p x = true := by
  obtain ⟨-, x, hg, hp⟩ := findIdx_go_spec l 0 i h
  simp only [Nat.sub_zero] at hg
  exact ⟨x, hg, hp⟩

/-- Any `getHamiltonianMove` result is a unit direction under the
construction invariant, provided the head is not at the last cycle index
(where the wrap step of the boustrophedon tour is not adjacent). -/
theorem getHamiltonianMove_unit {fuel : Nat} {ai : SnakeAI}
    {snake : SnakeState} {gameState : GameState} {now : Int} {d : Position}
    {ai' : SnakeAI} (hinv : AgentInv ai)
    (hwrap : ai.hamiltonianCycle.findIdx? (fun pos => pos == snake.head)
      ≠ some (ai.hamiltonianCycle.length - 1))
    (h : getHamiltonianMove fuel ai snake gameState now = some (d, ai')) :
    isUnitDirection d := by
  unfold getHamiltonianMove at h
  split at h
  · simp only [Option.some.injEq, Prod.mk.injEq] at h
    rw [← h.1]
    exact getSurvivalMove_unit snake gameState
  · rename_i hlen0
    split at h
    · exact getAStarMove_unit hinv.1 h
    · rename_i i hidx
      simp only [Option.some.injEq, Prod.mk.injEq] at h
      rw [← h.1]
      obtain ⟨x, hget, hx⟩ := findIdx_spec hidx
      have hxh : x = snake.head := by simpa using hx
      subst hxh
      have hilt : i < ai.hamiltonianCycle.length := by
        by_contra hge
        rw [List.get?_eq_none.mpr (by omega)] at hget
        simp at hget
      have hine : i ≠ ai.hamiltonianCycle.length - 1 := by
        intro hcontra
        exact hwrap (hcontra ▸ hidx)
      have hi1 : i + 1 < ai.hamiltonianCycle.length := by omega
      have hmod : (i + 1) % ai.hamiltonianCycle.length = i + 1 :=
        Nat.mod_eq_of_lt hi1
      have hchainAll : List.Chain' adjacentCells ai.hamiltonianCycle := by
        rw [hinv.2]
        exact generateHamiltonianCycle_chain _ _
      have hchain := List.chain'_iff_get.mp hchainAll i (by omega)
      have hgeti : ai.hamiltonianCycle.get ⟨i, hilt⟩ = snake.head := by
        rw [List.get?_eq_get hilt] at hget
        simpa using hget
      have hgetD : ai.hamiltonianCycle.getD (i + 1) default =
          ai.hamiltonianCycle.get ⟨i + 1, hi1⟩ := by
        simp [List.getD_eq_getElem?_getD, List.getElem?_eq_getElem hi1,
          List.get_eq_getElem]
      rw [hmod, hgetD, ← hgeti]
      exact adjacent_diff_unit hchain

/-- C1, amended.  `getNextMove` returns one of the four unit direction
vectors for every agent state satisfying the construction invariant
`AgentInv` — the path cache stores only paths whose second cell is
4-adjacent to the keyed head and the Hamiltonian cycle is the generated
tour for the agent's grid; `AgentInv` holds for `mkSnakeAI` and is
preserved by `setDifficulty`, `resetAI` and every `getNextMove` call —
provided the Hamiltonian follower is not consulted with the head at the
last cycle index (there the wrap step returns the non-adjacent
displacement `(0,-(H-1))`) and, under the simple strategy, the head does
not coincide with the food (there the zero vector can be returned); both
exclusions are exactly the failures of the counterexample.  In particular
cached A* serves, fresh A* paths and all fallbacks yield unit
directions. -/
theorem C1_unit_direction_amended (fuel : Nat) (ai : SnakeAI)
    (gameState : GameState) (now : Int) (d : Position) (ai' : SnakeAI)
    (hinv : AgentInv ai)
    (hwrap : ∀ snake, gameState.snakes.get? ai.playerId = some snake →
      ai.hamiltonianCycle.findIdx? (fun pos => pos == snake.head)
        ≠ some (ai.hamiltonianCycle.length - 1))
    (hfood : ∀ snake, gameState.snakes.get? ai.playerId = some snake →
      ai.strategy = Strategy.simple → snake.head ≠ gameState.food)
    (h : getNextMove fuel ai gameState now = some (d, ai')) :
    isUnitDirection d := by
  unfold getNextMove at h
  split at h
  · simp only [Option.some.injEq, Prod.mk.injEq] at h
    rw [← h.1]
    simp [isUnitDirection, fourDirections]
  · rename_i snake hsnake
    simp only at h
    split at h
    · exact getHamiltonianMove_unit (by exact hinv)
        (by exact hwrap snake hsnake) h
    · split at h
      · rename_i hsimp
        simp only [Option.some.injEq, Prod.mk.injEq] at h
        rw [← h.1]
        exact getSimpleMove_unit snake gameState (hfood snake hsnake hsimp)
      · exact getAStarMove_unit (by exact hinv.1) h
      · simp only [Option.some.injEq, Prod.mk.injEq] at h
        rw [← h.1]
        exact getSurvivalMove_unit snake gameState
      · exact getHamiltonianMove_unit (by exact hinv)
          (by exact hwrap snake hsnake) h

/-- The agent of the C1 witness scenario: Impossible tier, so the cycle
follower is exercised. -/
def agentC1w : SnakeAI := setDifficulty (mkSnakeAI 0 4 4) Difficulty.impossible 0

/-- The snapshot of the C1 witness scenario: 4×4 grid, head at `(1,1)`
(cycle index 6, not the last index). -/
def gameC1w : GameState :=
  ⟨⟨3, 3⟩, 4, 4, [], [⟨⟨1, 1⟩, [⟨1, 1⟩, ⟨1, 2⟩], ⟨1, 0⟩, 2⟩]⟩

/-- Closed witness for C1's amended statement on a concrete
Hamiltonian-follower run. -/
theorem C1_unit_direction_witness :
    isUnitDirection (((getNextMove 100 agentC1w gameC1w 0).map Prod.fst).getD
      ⟨0, 0⟩) := by
  obtain ⟨p, hp⟩ := Option.isSome_iff_exists.mp
    (show (getNextMove 100 agentC1w gameC1w 0).isSome = true by decide)
  rw [hp]
  simp only [Option.map_some', Option.getD_some]
  refine C1_unit_direction_amended 100 agentC1w gameC1w 0 p.1 p.2
    (setDifficulty_inv _ _ _ (mkSnakeAI_inv 0 4 4)) ?_ ?_ (by rw [hp])
  · intro snake hs
    have h2 : some (⟨⟨1, 1⟩, [⟨1, 1⟩, ⟨1, 2⟩], ⟨1, 0⟩, 2⟩ : SnakeState) =
        some snake := hs
    injection h2 with h3
    subst h3
    decide
  · intro snake _ habs
    exact absurd habs (by decide)
